import Mathlib

/-!
Shallow embedding of the typing-practice session engine from the repository
(the `TypingPractice` React component).  Words are modelled as `List Char`
(JS strings indexed by code unit), the correctness bitmap as `List Bool`,
elapsed time as `ℚ` (seconds), and aggregate counters as `ℤ` (JS numbers).

React semantics that matter for fidelity: within one input event all reads
of component state see the values from the current render (the snapshot at
the start of the event), and all `setX` calls are batched and take effect
afterwards, the last write to each field winning.  In particular `endTest`,
when invoked inside a keystroke or timer-tick handler, computes its final
metrics from the *snapshot* state, not from the updates queued earlier in
the same handler.  The model threads that snapshot explicitly.
-/

namespace TypingSpec

inductive TypingMode where
  | time
  | words
deriving DecidableEq, Repr

inductive TypingDifficulty where
  | easy
  | medium
  | hard
  | numbers
  | mixed
deriving DecidableEq, Repr

inductive AccuracyMode where
  | strict
  | relaxed
deriving DecidableEq, Repr

/-- The persisted aggregate statistics record (`TypingStats` in the source).
Counters are `ℤ` because JS subtraction (`charsTyped - totalCorrectChars`)
is not truncated. -/
structure TypingStats where
  wpm : ℤ
  accuracy : ℤ
  correctChars : ℤ
  incorrectChars : ℤ
  totalChars : ℤ
  completedTests : ℤ
deriving DecidableEq, Repr

/-- Session configuration (`TypingSettings` in the source). -/
structure TypingSettings where
  mode : TypingMode
  difficulty : TypingDifficulty
  timeLimit : ℕ
  wordCount : ℕ
  soundEnabled : Bool
  accuracyMode : AccuracyMode
deriving DecidableEq, Repr

def DEFAULT_STATS : TypingStats :=
  { wpm := 0, accuracy := 0, correctChars := 0, incorrectChars := 0,
    totalChars := 0, completedTests := 0 }

def DEFAULT_SETTINGS : TypingSettings :=
  { mode := TypingMode.time, difficulty := TypingDifficulty.medium,
    timeLimit := 30, wordCount := 25, soundEnabled := true,
    accuracyMode := AccuracyMode.relaxed }

/-- `words.join(" ")`: the space-joined session text. -/
def joinWords : List (List Char) → List Char
  | [] => []
  | [w] => w
  | w :: rest => w ++ ' ' :: joinWords rest

/-- `newWords.join(" ").length`: length of the bitmap allocated by `resetTest`. -/
def totalChars (ws : List (List Char)) : ℕ := (joinWords ws).length

/-- Tail of the `charOffsets` loop: the loop body runs for
`i = 0 .. words.length - 2`, pushing the running offset after each word. -/
def offsetsTail : List (List Char) → ℕ → List ℕ
  | [], _ => []
  | [_], _ => []
  | w :: rest, acc => (acc + w.length + 1) :: offsetsTail rest (acc + w.length + 1)

/-- `charOffsets`: absolute start offset of each word in the joined text,
starting from `[0]` exactly as in the source. -/
def charOffsets (ws : List (List Char)) : List ℕ := 0 :: offsetsTail ws 0

/-- The mutable session state owned by the component (the `useState` fields
that the session engine reads and writes; display-only fields such as
`currentWpm`, `currentAccuracy`, `visibleRange` and the audio/timer refs are
not part of the model). -/
structure SessionState where
  words : List (List Char)
  currentInput : List Char
  currentWordIndex : ℕ
  currentCharIndex : ℕ
  correctChars : List Bool
  errorPosition : Option ℕ
  testActive : Bool
  testComplete : Bool
  timeElapsed : ℚ
  stats : TypingStats
deriving DecidableEq, Repr

/-- The state `resetTest` establishes (the aggregate stats are persisted and
survive a reset). -/
def resetState (stats : TypingStats) (ws : List (List Char)) : SessionState :=
  { words := ws, currentInput := [], currentWordIndex := 0, currentCharIndex := 0,
    correctChars := List.replicate (totalChars ws) false,
    errorPosition := none, testActive := false, testComplete := false,
    timeElapsed := 0, stats := stats }

/-- `Math.round` on a finite rational: JS rounds half toward positive
infinity, i.e. `⌊q + 1/2⌋`. -/
def jsRound (q : ℚ) : ℤ := ⌊q + 1/2⌋

/-- `getCompletedCharCount` from the source. -/
def getCompletedCharCount (s : SessionState) : ℕ :=
  if s.currentWordIndex = 0 ∧ s.currentCharIndex = 0 then 0
  else if (charOffsets s.words).length = 0 ∨
          (charOffsets s.words).length ≤ s.currentWordIndex then 0
  else (charOffsets s.words).getD s.currentWordIndex 0 + s.currentCharIndex

/-- `getCorrectCharCount`: `correctChars.filter(Boolean).length`. -/
def getCorrectCharCount (s : SessionState) : ℕ := s.correctChars.count true

/-- `calculateAccuracy` (and the identical `calculateCurrentAccuracy`):
`Math.round((correctCount / totalChars) * 100)`, `100` when no character has
been completed. -/
def calculateAccuracy (s : SessionState) : ℤ :=
  let t := getCompletedCharCount s
  if t = 0 then 100
  else jsRound (((getCorrectCharCount s : ℚ) / (t : ℚ)) * 100)

/-- The WPM computed by `endTest`:
`Math.round((charsTyped / 5) / (timeElapsed / 60)) || 0`.  The `|| 0`
fallback maps the `0/0 = NaN` case (no time elapsed, nothing typed) to `0`;
the model also returns `0` for the JS `Infinity` case (no time elapsed but
characters typed), which no claim touches. -/
def sessionWpm (s : SessionState) : ℤ :=
  let minutes : ℚ := s.timeElapsed / 60
  if minutes = 0 then 0
  else jsRound (((getCompletedCharCount s : ℚ) / 5) / minutes)

/-- `endTest`: computes the final metrics from the snapshot state `s0` (the
render-time values its closures captured) and applies the phase changes and
the aggregate-stats merge on top of the accumulated state `s`. -/
def endTest (s0 s : SessionState) : SessionState :=
  let charsTyped := getCompletedCharCount s0
  let wpm := sessionWpm s0
  let accuracy := calculateAccuracy s0
  let totalCorrectChars := getCorrectCharCount s0
  let totalIncorrectChars : ℤ := (charsTyped : ℤ) - (totalCorrectChars : ℤ)
  { s with
    testActive := false,
    testComplete := true,
    stats :=
      { wpm := max s0.stats.wpm wpm,
        accuracy := jsRound (((s0.stats.accuracy : ℚ) + (accuracy : ℚ)) / 2),
        correctChars := s0.stats.correctChars + (totalCorrectChars : ℤ),
        incorrectChars := s0.stats.incorrectChars + totalIncorrectChars,
        totalChars := s0.stats.totalChars + (charsTyped : ℤ),
        completedTests := s0.stats.completedTests + 1 } }

/-- `typedChar === expectedChar` where `expectedChar = currentWord[currentCharIndex]`
(`false` when the index is past the end of the word, as comparing with
`undefined` is). -/
def isCorrectChar (w : List Char) (i : ℕ) (c : Char) : Bool :=
  match w.get? i with
  | some e => c == e
  | none => false

/-- The bitmap update on a typed character:
`if (charOffsets[currentWordIndex] !== undefined && currentCharIndex < currentWord.length)`
then write `isCorrect` at `charOffsets[currentWordIndex] + currentCharIndex`. -/
def writeBitmap (s : SessionState) (w : List Char) (isCorrect : Bool) : List Bool :=
  if s.currentWordIndex < (charOffsets s.words).length ∧
     s.currentCharIndex < w.length then
    s.correctChars.set
      ((charOffsets s.words).getD s.currentWordIndex 0 + s.currentCharIndex) isCorrect
  else s.correctChars

/-- Word advancement on a separator, including the completion checks; `s0` is
the snapshot state whose values `endTest` reads. -/
def advanceWord (cfg : TypingSettings) (s0 base : SessionState) : SessionState :=
  let newIndex := s0.currentWordIndex + 1
  let adv :=
    { base with
      currentWordIndex := newIndex, currentCharIndex := 0,
      currentInput := [], errorPosition := none }
  if s0.words.length ≤ newIndex then endTest s0 adv
  else if cfg.mode = TypingMode.words ∧ cfg.wordCount ≤ newIndex then endTest s0 adv
  else adv

/-- The typed-character branch of `handleInputChange` (`value.length >
currentInput.length`).  `s` is the snapshot state (with `testActive` already
forced on), `w` the current word, `c` the typed character and `value` the new
input-buffer contents. -/
def charStep (cfg : TypingSettings) (s : SessionState) (w : List Char) (c : Char)
    (value : List Char) : SessionState :=
  let isCorrect := isCorrectChar w s.currentCharIndex c
  let base :=
    { s with
      correctChars := writeBitmap s w isCorrect,
      currentCharIndex :=
        if cfg.accuracyMode = AccuracyMode.strict then
          (if isCorrect then s.currentCharIndex + 1 else s.currentCharIndex)
        else s.currentCharIndex + 1,
      currentInput := value }
  if c = ' ' then
    if cfg.accuracyMode = AccuracyMode.strict ∧ s.errorPosition ≠ none then base
    else if s.currentCharIndex = w.length ∨ cfg.accuracyMode = AccuracyMode.relaxed then
      advanceWord cfg s base
    else base
  else base

/-- The bitmap reset in the within-word backspace branch, with the source's
range guards. -/
def eraseBitmap (s : SessionState) : List Bool :=
  if s.currentWordIndex < (charOffsets s.words).length then
    let pos := (charOffsets s.words).getD s.currentWordIndex 0 + s.currentCharIndex - 1
    if pos < s.correctChars.length then s.correctChars.set pos false
    else s.correctChars
  else s.correctChars

/-- The strict-mode error-marker clearing on backspace (`currentCharIndex - 1 <=
errorPosition`). -/
def backspaceError (cfg : TypingSettings) (s : SessionState) : Option ℕ :=
  match s.errorPosition with
  | none => none
  | some ep =>
      if cfg.accuracyMode = AccuracyMode.strict ∧ s.currentCharIndex - 1 ≤ ep then none
      else some ep

/-- The backspace branch of `handleInputChange` (`value.length <
currentInput.length`). -/
def backspaceStep (cfg : TypingSettings) (s : SessionState) (value : List Char) :
    SessionState :=
  if s.currentCharIndex = 0 ∧ 0 < s.currentWordIndex then
    match s.words.get? (s.currentWordIndex - 1) with
    | none => s
    | some prevWord =>
        if prevWord = [] then s
        else
          { s with currentWordIndex := s.currentWordIndex - 1,
                   currentCharIndex := prevWord.length,
                   currentInput := prevWord }
  else if 0 < s.currentCharIndex then
    { s with currentCharIndex := s.currentCharIndex - 1,
             currentInput := value,
             correctChars := eraseBitmap s,
             errorPosition := backspaceError cfg s }
  else s

/-- The start-of-test activation: `if (!testActive && value.length > 0)`
then the test becomes active (the start timestamp, which the model keeps
implicit, is taken at this moment). -/
def activeState (s : SessionState) (value : List Char) : SessionState :=
  if ¬s.testActive = true ∧ 0 < value.length then { s with testActive := true } else s

/-- `handleInputChange`, taking the new contents `value` of the input element.
The safety check `if (!currentWord) return` fires when `words[currentWordIndex]`
is `undefined` (the `none` branch) or the empty string (JS falsiness). -/
def handleInputChange (cfg : TypingSettings) (s : SessionState) (value : List Char) :
    SessionState :=
  if s.testComplete then s
  else
    match s.words.get? s.currentWordIndex with
    | none => activeState s value
    | some w =>
        if w = [] then activeState s value
        else if s.currentInput.length < value.length then
          charStep cfg (activeState s value) w (value.getD (value.length - 1) ' ') value
        else if value.length < s.currentInput.length then
          backspaceStep cfg (activeState s value) value
        else activeState s value

/-- A single character keystroke: the input buffer grows by one character. -/
def applyKey (cfg : TypingSettings) (s : SessionState) (c : Char) : SessionState :=
  handleInputChange cfg s (s.currentInput ++ [c])

/-- A single backspace keystroke: the input buffer shrinks by one character. -/
def applyBackspace (cfg : TypingSettings) (s : SessionState) : SessionState :=
  handleInputChange cfg s s.currentInput.dropLast

/-- One firing of the 100ms timer interval, with `e` the recomputed elapsed
seconds.  The interval only exists while `testActive && !testComplete`.  Both
`endTest` calls read the snapshot `s`; calling it twice is idempotent because
it overwrites phase and stats from snapshot values. -/
def applyTick (cfg : TypingSettings) (s : SessionState) (e : ℚ) : SessionState :=
  if s.testActive = true ∧ s.testComplete = false then
    let s1 := { s with timeElapsed := e }
    let s2 := if cfg.mode = TypingMode.time ∧ (cfg.timeLimit : ℚ) ≤ e then endTest s s1
              else s1
    if cfg.mode = TypingMode.time ∧ s.words.length ≤ s.currentWordIndex then endTest s s2
    else s2
  else s

inductive TypingEvent where
  | key (c : Char)
  | backspace
  | tick (e : ℚ)

def applyEvent (cfg : TypingSettings) (s : SessionState) : TypingEvent → SessionState
  | TypingEvent.key c => applyKey cfg s c
  | TypingEvent.backspace => applyBackspace cfg s
  | TypingEvent.tick e => applyTick cfg s e

def runEvents (cfg : TypingSettings) (s : SessionState) (evs : List TypingEvent) :
    SessionState :=
  evs.foldl (applyEvent cfg) s

/-- A participant record in a challenge. -/
structure Participant where
  name : String
  wpm : ℤ
  accuracy : ℤ
deriving DecidableEq, Repr

/-- A challenge record (`Challenge` in the source). -/
structure Challenge where
  id : String
  creatorName : String
  difficulty : TypingDifficulty
  mode : TypingMode
  limit : ℕ
  expiresAt : ℕ
  bestWpm : ℤ
  bestAccuracy : ℤ
  participants : List Participant
deriving DecidableEq, Repr

/-- The participant update of `updateChallengeResult`: `findIndex` on the name,
overwrite wpm/accuracy in place only if the stored wpm is strictly smaller,
otherwise push a fresh record at the end. -/
def updateParticipants (userName : String) (wpm accuracy : ℤ) :
    List Participant → List Participant
  | [] => [{ name := userName, wpm := wpm, accuracy := accuracy }]
  | p :: ps =>
      if p.name = userName then
        (if p.wpm < wpm then { name := p.name, wpm := wpm, accuracy := accuracy } else p)
          :: ps
      else p :: updateParticipants userName wpm accuracy ps

/-- `updateChallengeResult` over the stored challenge list. -/
def updateChallengeResult (userName : String) (challengeId : String) (wpm accuracy : ℤ)
    (challenges : List Challenge) : List Challenge :=
  challenges.map fun challenge =>
    if challenge.id = challengeId then
      { challenge with
        participants := updateParticipants userName wpm accuracy challenge.participants,
        bestWpm := max challenge.bestWpm wpm,
        bestAccuracy := max challenge.bestAccuracy accuracy }
    else challenge

/-- Absolute position of the separator that follows word `k` in the joined
text (meaningful for `k + 1 < ws.length`). -/
def spacePos (ws : List (List Char)) (k : ℕ) : ℕ :=
  (charOffsets ws).getD k 0 + (ws.getD k []).length

/-- The least absolute bitmap position at or beyond the cursor that the
session can still be holding data for; with a relaxed-mode overshoot
(`charIndex` past the word length) nothing beyond the following separator
was ever written. -/
def cursorFloor (s : SessionState) : ℕ :=
  if s.currentWordIndex < s.words.length then
    (charOffsets s.words).getD s.currentWordIndex 0 +
      min s.currentCharIndex ((s.words.getD s.currentWordIndex []).length + 1)
  else totalChars s.words

/-- The reachable-state invariant of the session state machine. -/
structure SessionInv (cfg : TypingSettings) (s : SessionState) : Prop where
  wiBound : s.currentWordIndex ≤ s.words.length
  ciBound : cfg.accuracyMode = AccuracyMode.strict → ∀ w : List Char,
    s.words.get? s.currentWordIndex = some w → s.currentCharIndex ≤ w.length
  bmLen : s.correctChars.length = totalChars s.words
  beyond : ∀ j : ℕ, cursorFloor s ≤ j → s.correctChars.getD j false = false
  spacesFalse : ∀ k : ℕ, k + 1 < s.words.length →
    s.correctChars.getD (spacePos s.words k) false = false
  errNone : s.errorPosition = none

/-- The strict-policy scenario configuration. -/
def strictSettings : TypingSettings :=
  { DEFAULT_SETTINGS with accuracyMode := AccuracyMode.strict }

/-- The word-count-bounded scenario configuration. -/
def wordsSettings : TypingSettings :=
  { DEFAULT_SETTINGS with mode := TypingMode.words }

/-- First session of the aggregate-stats scenario: over the single word
`abcde`, four of the five characters are typed correctly before the
separator completes the session (session accuracy 80), starting from the
default all-zero stats. -/
def statsScenarioFirst : SessionState :=
  runEvents DEFAULT_SETTINGS
    (resetState DEFAULT_STATS [['a', 'b', 'c', 'd', 'e']])
    [TypingEvent.key 'a', TypingEvent.key 'b', TypingEvent.key 'c',
     TypingEvent.key 'd', TypingEvent.key 'x', TypingEvent.key ' ']

/-- Second session of the scenario: four characters typed, all correct
(session accuracy 100), starting from the stats stored by the first
session. -/
def statsScenarioSecond : SessionState :=
  runEvents DEFAULT_SETTINGS
    (resetState statsScenarioFirst.stats [['a', 'b', 'c', 'd', 'e']])
    [TypingEvent.key 'a', TypingEvent.key 'b', TypingEvent.key 'c',
     TypingEvent.key 'd', TypingEvent.key ' ']

end TypingSpec

namespace TypingSpec

theorem getD_of_length_le {α : Type} (l : List α) (j : ℕ) (d : α)
    (h : l.length ≤ j) : l.getD j d = d := by
  induction l generalizing j with
  | nil => simp [List.getD]
  | cons a l ih =>
      cases j with
      | zero => simp at h
      | succ j => simpa using ih j (by simpa using h)

theorem getD_set_self {α : Type} (l : List α) (i : ℕ) (a d : α)
    (h : i < l.length) : (l.set i a).getD i d = a := by
  induction l generalizing i with
  | nil => simp at h
  | cons b l ih =>
      cases i with
      | zero => simp
      | succ i => simpa using ih i (by simpa using h)

theorem getD_set_of_ne {α : Type} (l : List α) (i j : ℕ) (a d : α)
    (h : i ≠ j) : (l.set i a).getD j d = l.getD j d := by
  induction l generalizing i j with
  | nil => simp
  | cons b l ih =>
      cases i with
      | zero =>
          cases j with
          | zero => exact absurd rfl h
          | succ j => simp
      | succ i =>
          cases j with
          | zero => simp
          | succ j => simpa using ih i j (by omega)

theorem set_false_of_getD_false (l : List Bool) (i : ℕ)
    (h : l.getD i false = false) : l.set i false = l := by
  induction l generalizing i with
  | nil => simp
  | cons b l ih =>
      cases i with
      | zero => simp_all
      | succ i => simp_all

theorem getD_replicate_false (n j : ℕ) :
    (List.replicate n false).getD j false = false := by
  induction n generalizing j with
  | zero => simp [List.getD]
  | succ n ih =>
      cases j with
      | zero => simp [List.replicate]
      | succ j => simp [List.replicate, ih j]

theorem getD_eq_of_get?_eq_some {α : Type} (l : List α) (i : ℕ) (a d : α)
    (h : l.get? i = some a) : l.getD i d = a := by
  induction l generalizing i with
  | nil => simp at h
  | cons b l ih =>
      cases i with
      | zero => simp_all
      | succ i =>
          simp only [List.get?_cons_succ] at h
          simpa using ih i h

theorem offsetsTail_length (ws : List (List Char)) (acc : ℕ) :
    (offsetsTail ws acc).length = ws.length - 1 := by
  induction ws generalizing acc with
  | nil => simp [offsetsTail]
  | cons w rest ih =>
      cases rest with
      | nil => simp [offsetsTail]
      | cons w2 rest2 => simp [offsetsTail, ih]

theorem charOffsets_length (ws : List (List Char)) (h : ws ≠ []) :
    (charOffsets ws).length = ws.length := by
  have hl : 1 ≤ ws.length := by
    cases ws with
    | nil => exact absurd rfl h
    | cons w rest => simp
  simp [charOffsets, offsetsTail_length]
  omega

theorem charOffsets_zero (ws : List (List Char)) :
    (charOffsets ws).getD 0 0 = 0 := rfl

theorem offsets_cons_succ (ws : List (List Char)) (acc i : ℕ)
    (h : i + 1 < ws.length) :
    (acc :: offsetsTail ws acc).getD (i + 1) 0 =
      (acc :: offsetsTail ws acc).getD i 0 + (ws.getD i []).length + 1 := by
  induction ws generalizing acc i with
  | nil => simp at h
  | cons w rest ih =>
      cases rest with
      | nil => simp at h
      | cons w2 rest2 =>
          cases i with
          | zero => simp [offsetsTail]
          | succ i =>
              have h2 : i + 1 < (w2 :: rest2).length := by
                simpa using Nat.lt_of_succ_lt_succ h
              simpa [offsetsTail] using ih (acc + w.length + 1) i h2

theorem charOffsets_succ (ws : List (List Char)) (i : ℕ) (h : i + 1 < ws.length) :
    (charOffsets ws).getD (i + 1) 0 =
      (charOffsets ws).getD i 0 + (ws.getD i []).length + 1 :=
  offsets_cons_succ ws 0 i h

theorem sum_map_take_succ (l : List (List Char)) (i : ℕ)
    (h : i < l.length) :
    ((l.take (i + 1)).map (fun w => w.length + 1)).sum =
      ((l.take i).map (fun w => w.length + 1)).sum + ((l.getD i []).length + 1) := by
  induction l generalizing i with
  | nil => simp at h
  | cons w rest ih =>
      cases i with
      | zero => simp
      | succ i =>
          have h2 : i < rest.length := by simpa using Nat.lt_of_succ_lt_succ h
          simp only [List.take_succ_cons, List.map_cons, List.sum_cons,
            List.getD_cons_succ]
          rw [ih i h2]
          omega

theorem sum_map_take_mono (l : List (List Char)) (i j : ℕ)
    (h : i ≤ j) :
    ((l.take i).map (fun w => w.length + 1)).sum ≤
      ((l.take j).map (fun w => w.length + 1)).sum := by
  induction l generalizing i j with
  | nil => simp
  | cons w rest ih =>
      cases i with
      | zero => simp
      | succ i =>
          cases j with
          | zero => omega
          | succ j =>
              have := ih i j (by omega)
              simp only [List.take_succ_cons, List.map_cons, List.sum_cons]
              omega

theorem charOffsets_getD_eq_sum (ws : List (List Char)) (i : ℕ) (h : i < ws.length) :
    (charOffsets ws).getD i 0 = ((ws.take i).map (fun w => w.length + 1)).sum := by
  induction i with
  | zero => rw [charOffsets_zero]; simp
  | succ i ih =>
      have hi : i < ws.length := by omega
      rw [charOffsets_succ ws i h, ih hi, sum_map_take_succ ws i hi]
      omega

theorem totalChars_succ_eq_sum (ws : List (List Char)) (h : ws ≠ []) :
    totalChars ws + 1 = ((ws.map (fun w => w.length + 1)).sum) := by
  induction ws with
  | nil => exact absurd rfl h
  | cons w rest ih =>
      cases rest with
      | nil => simp [totalChars, joinWords]
      | cons w2 rest2 =>
          have := ih (by simp)
          simp [totalChars, joinWords] at this ⊢
          omega

theorem charOffsets_add_len_le_total (ws : List (List Char)) (i : ℕ)
    (h : i < ws.length) :
    (charOffsets ws).getD i 0 + (ws.getD i []).length + 1 ≤ totalChars ws + 1 := by
  rw [charOffsets_getD_eq_sum ws i h,
      totalChars_succ_eq_sum ws (by intro hc; rw [hc] at h; simp at h)]
  have h1 := sum_map_take_succ ws i h
  have h2 := sum_map_take_mono ws (i + 1) ws.length (by omega)
  rw [List.take_length] at h2
  omega

theorem charOffsets_mono (ws : List (List Char)) (i j : ℕ) (h : i ≤ j)
    (hj : j < ws.length) :
    (charOffsets ws).getD i 0 ≤ (charOffsets ws).getD j 0 := by
  rw [charOffsets_getD_eq_sum ws i (by omega), charOffsets_getD_eq_sum ws j hj]
  exact sum_map_take_mono ws i j h

end TypingSpec

namespace TypingSpec

theorem spacePos_succ (ws : List (List Char)) (k : ℕ) (h : k + 1 < ws.length) :
    spacePos ws k + 1 = (charOffsets ws).getD (k + 1) 0 := by
  rw [spacePos, charOffsets_succ ws k h]

theorem wordPos_ne_spacePos (ws : List (List Char)) (i ci k : ℕ)
    (hi : i < ws.length) (hci : ci < (ws.getD i []).length)
    (hk : k + 1 < ws.length) :
    (charOffsets ws).getD i 0 + ci ≠ spacePos ws k := by
  rcases lt_trichotomy k i with hlt | heq | hgt
  · have h1 := spacePos_succ ws k (by omega)
    have h2 := charOffsets_mono ws (k + 1) i (by omega) hi
    omega
  · subst heq
    rw [spacePos]
    omega
  · have h1 := charOffsets_succ ws i (by omega)
    have h2 := charOffsets_mono ws (i + 1) k (by omega) (by omega)
    rw [spacePos]
    have h3 : (0:ℕ) ≤ (ws.getD k []).length := Nat.zero_le _
    omega

theorem isCorrectChar_lt (w : List Char) (i : ℕ) (c : Char)
    (h : isCorrectChar w i c = true) : i < w.length := by
  rw [isCorrectChar] at h
  cases hg : w.get? i with
  | none => rw [hg] at h; simp at h
  | some e => exact (List.get?_eq_some.mp hg).1

theorem writeBitmap_length (s : SessionState) (w : List Char) (b : Bool) :
    (writeBitmap s w b).length = s.correctChars.length := by
  rw [writeBitmap]
  split
  · exact List.length_set _ _ _
  · rfl

theorem eraseBitmap_length (s : SessionState) :
    (eraseBitmap s).length = s.correctChars.length := by
  simp only [eraseBitmap]
  split
  · split
    · exact List.length_set _ _ _
    · rfl
  · rfl

theorem inv_resetState (cfg : TypingSettings) (stats : TypingStats)
    (ws : List (List Char)) : SessionInv cfg (resetState stats ws) := by
  refine ⟨?_, ?_, ?_, ?_, ?_, rfl⟩
  · exact Nat.zero_le _
  · intro _ w _
    exact Nat.zero_le _
  · exact List.length_replicate _ _
  · intro j _
    exact getD_replicate_false _ j
  · intro k _
    exact getD_replicate_false _ _

theorem inv_endTest (cfg : TypingSettings) (s0 s : SessionState)
    (h : SessionInv cfg s) : SessionInv cfg (endTest s0 s) :=
  ⟨h.wiBound, h.ciBound, h.bmLen, h.beyond, h.spacesFalse, h.errNone⟩

theorem inv_setActive (cfg : TypingSettings) (s : SessionState)
    (h : SessionInv cfg s) : SessionInv cfg { s with testActive := true } :=
  ⟨h.wiBound, h.ciBound, h.bmLen, h.beyond, h.spacesFalse, h.errNone⟩

theorem inv_setElapsed (cfg : TypingSettings) (s : SessionState) (e : ℚ)
    (h : SessionInv cfg s) : SessionInv cfg { s with timeElapsed := e } :=
  ⟨h.wiBound, h.ciBound, h.bmLen, h.beyond, h.spacesFalse, h.errNone⟩

end TypingSpec

namespace TypingSpec

theorem cursorFloor_lt (s : SessionState)
    (h : s.currentWordIndex < s.words.length) :
    cursorFloor s = (charOffsets s.words).getD s.currentWordIndex 0 +
      min s.currentCharIndex ((s.words.getD s.currentWordIndex []).length + 1) :=
  if_pos h

theorem cursorFloor_ge (s : SessionState)
    (h : ¬s.currentWordIndex < s.words.length) :
    cursorFloor s = totalChars s.words :=
  if_neg h

theorem activeState_words (s : SessionState) (value : List Char) :
    (activeState s value).words = s.words := by
  rw [activeState]; split <;> rfl

theorem activeState_currentWordIndex (s : SessionState) (value : List Char) :
    (activeState s value).currentWordIndex = s.currentWordIndex := by
  rw [activeState]; split <;> rfl

theorem activeState_currentCharIndex (s : SessionState) (value : List Char) :
    (activeState s value).currentCharIndex = s.currentCharIndex := by
  rw [activeState]; split <;> rfl

theorem activeState_currentInput (s : SessionState) (value : List Char) :
    (activeState s value).currentInput = s.currentInput := by
  rw [activeState]; split <;> rfl

theorem activeState_correctChars (s : SessionState) (value : List Char) :
    (activeState s value).correctChars = s.correctChars := by
  rw [activeState]; split <;> rfl

theorem activeState_errorPosition (s : SessionState) (value : List Char) :
    (activeState s value).errorPosition = s.errorPosition := by
  rw [activeState]; split <;> rfl

theorem activeState_testComplete (s : SessionState) (value : List Char) :
    (activeState s value).testComplete = s.testComplete := by
  rw [activeState]; split <;> rfl

theorem activeState_timeElapsed (s : SessionState) (value : List Char) :
    (activeState s value).timeElapsed = s.timeElapsed := by
  rw [activeState]; split <;> rfl

theorem activeState_stats (s : SessionState) (value : List Char) :
    (activeState s value).stats = s.stats := by
  rw [activeState]; split <;> rfl

theorem inv_activeState (cfg : TypingSettings) (s : SessionState) (value : List Char)
    (h : SessionInv cfg s) : SessionInv cfg (activeState s value) := by
  rw [activeState]
  split
  · exact inv_setActive cfg s h
  · exact h

end TypingSpec

namespace TypingSpec

theorem inv_writeState (cfg : TypingSettings) (s : SessionState) (w : List Char)
    (b : Bool) (n : ℕ) (value : List Char)
    (hw : s.words.get? s.currentWordIndex = some w)
    (h : SessionInv cfg s)
    (hlo : s.currentCharIndex ≤ n)
    (hciB : cfg.accuracyMode = AccuracyMode.strict → n ≤ w.length)
    (htrue : b = true → s.currentCharIndex < w.length → n = s.currentCharIndex + 1) :
    SessionInv cfg
      { s with correctChars := writeBitmap s w b,
               currentCharIndex := n, currentInput := value } := by
  have hwi : s.currentWordIndex < s.words.length := (List.get?_eq_some.mp hw).1
  have hgD : s.words.getD s.currentWordIndex [] = w :=
    getD_eq_of_get?_eq_some _ _ _ _ hw
  have hne : s.words ≠ [] := by
    intro hc
    rw [hc] at hwi
    simp at hwi
  have hbound := charOffsets_add_len_le_total s.words s.currentWordIndex hwi
  rw [hgD] at hbound
  refine ⟨h.wiBound, ?_, ?_, ?_, ?_, h.errNone⟩
  · intro hstrict w' hw'
    have hw2 : s.words.get? s.currentWordIndex = some w' := hw'
    have hww : w' = w := Option.some.inj (hw2.symm.trans hw)
    show n ≤ w'.length
    rw [hww]
    exact hciB hstrict
  · show (writeBitmap s w b).length = totalChars s.words
    rw [writeBitmap_length]
    exact h.bmLen
  · intro j hj
    rw [cursorFloor_lt
      { s with correctChars := writeBitmap s w b,
               currentCharIndex := n, currentInput := value } hwi] at hj
    dsimp only at hj
    rw [hgD] at hj
    show (writeBitmap s w b).getD j false = false
    rw [writeBitmap]
    by_cases hcond : s.currentWordIndex < (charOffsets s.words).length ∧
        s.currentCharIndex < w.length
    · rw [if_pos hcond]
      by_cases hpos :
          (charOffsets s.words).getD s.currentWordIndex 0 + s.currentCharIndex = j
      · rw [← hpos]
        have hposlt :
            (charOffsets s.words).getD s.currentWordIndex 0 + s.currentCharIndex <
              s.correctChars.length := by
          rw [h.bmLen]
          omega
        rw [getD_set_self _ _ _ _ hposlt]
        cases b with
        | false => rfl
        | true =>
            exfalso
            have hn := htrue rfl hcond.2
            omega
      · rw [getD_set_of_ne _ _ _ _ _ hpos]
        apply h.beyond
        rw [cursorFloor_lt s hwi, hgD]
        omega
    · rw [if_neg hcond]
      apply h.beyond
      rw [cursorFloor_lt s hwi, hgD]
      omega
  · intro k hk
    have hk2 : k + 1 < s.words.length := hk
    show (writeBitmap s w b).getD (spacePos s.words k) false = false
    rw [writeBitmap]
    by_cases hcond : s.currentWordIndex < (charOffsets s.words).length ∧
        s.currentCharIndex < w.length
    · rw [if_pos hcond]
      have hnesp :
          (charOffsets s.words).getD s.currentWordIndex 0 + s.currentCharIndex ≠
            spacePos s.words k :=
        wordPos_ne_spacePos s.words s.currentWordIndex s.currentCharIndex k hwi
          (by rw [hgD]; exact hcond.2) hk2
      rw [getD_set_of_ne _ _ _ _ _ hnesp]
      exact h.spacesFalse k hk2
    · rw [if_neg hcond]
      exact h.spacesFalse k hk2

end TypingSpec

namespace TypingSpec

theorem inv_advanceWord (cfg : TypingSettings) (s base : SessionState)
    (hwords : base.words = s.words)
    (hwi : base.currentWordIndex = s.currentWordIndex)
    (hwilt : s.currentWordIndex < s.words.length)
    (hb : SessionInv cfg base) :
    SessionInv cfg (advanceWord cfg s base) := by
  have hadv : SessionInv cfg
      { base with
        currentWordIndex := s.currentWordIndex + 1,
        currentCharIndex := 0,
        currentInput := ([] : List Char),
        errorPosition := (none : Option ℕ) } := by
    refine ⟨?_, ?_, ?_, ?_, ?_, rfl⟩
    · show s.currentWordIndex + 1 ≤ base.words.length
      rw [hwords]
      omega
    · intro _ w' _
      show (0:ℕ) ≤ w'.length
      exact Nat.zero_le _
    · show base.correctChars.length = totalChars base.words
      exact hb.bmLen
    · intro j hj
      show base.correctChars.getD j false = false
      by_cases hlt : s.currentWordIndex + 1 < s.words.length
      · rw [cursorFloor_lt
            { base with
              currentWordIndex := s.currentWordIndex + 1,
              currentCharIndex := 0,
              currentInput := ([] : List Char),
              errorPosition := (none : Option ℕ) }
            (show s.currentWordIndex + 1 < base.words.length by
              rw [hwords]; exact hlt)] at hj
        dsimp only at hj
        rw [hwords] at hj
        have hsucc := charOffsets_succ s.words s.currentWordIndex hlt
        apply hb.beyond
        rw [cursorFloor_lt base (by rw [hwi, hwords]; exact hwilt)]
        rw [hwords, hwi]
        omega
      · rw [cursorFloor_ge
            { base with
              currentWordIndex := s.currentWordIndex + 1,
              currentCharIndex := 0,
              currentInput := ([] : List Char),
              errorPosition := (none : Option ℕ) }
            (show ¬s.currentWordIndex + 1 < base.words.length by
              rw [hwords]; exact hlt)] at hj
        dsimp only at hj
        rw [hwords] at hj
        apply getD_of_length_le
        rw [hb.bmLen, hwords]
        exact hj
    · intro k hk
      show base.correctChars.getD (spacePos base.words k) false = false
      exact hb.spacesFalse k hk
  simp only [advanceWord]
  split_ifs with h1 h2
  · exact inv_endTest cfg s _ hadv
  · exact inv_endTest cfg s _ hadv
  · exact hadv

end TypingSpec

namespace TypingSpec

theorem inv_charStep (cfg : TypingSettings) (s : SessionState) (w : List Char)
    (c : Char) (value : List Char)
    (hw : s.words.get? s.currentWordIndex = some w)
    (h : SessionInv cfg s) :
    SessionInv cfg (charStep cfg s w c value) := by
  have hwi : s.currentWordIndex < s.words.length := (List.get?_eq_some.mp hw).1
  have hbase : SessionInv cfg
      { s with
        correctChars := writeBitmap s w (isCorrectChar w s.currentCharIndex c),
        currentCharIndex :=
          if cfg.accuracyMode = AccuracyMode.strict then
            (if isCorrectChar w s.currentCharIndex c then s.currentCharIndex + 1
             else s.currentCharIndex)
          else s.currentCharIndex + 1,
        currentInput := value } := by
    apply inv_writeState cfg s w _ _ value hw h
    · split_ifs <;> omega
    · intro hstrict
      rw [if_pos hstrict]
      by_cases hic : isCorrectChar w s.currentCharIndex c = true
      · rw [if_pos hic]
        have := isCorrectChar_lt w s.currentCharIndex c hic
        omega
      · rw [if_neg hic]
        exact h.ciBound hstrict w hw
    · intro hic hlt
      by_cases hstrict : cfg.accuracyMode = AccuracyMode.strict
      · rw [if_pos hstrict, if_pos hic]
      · rw [if_neg hstrict]
  simp only [charStep]
  by_cases hsp : c = ' '
  · rw [if_pos hsp]
    have herr : ¬(cfg.accuracyMode = AccuracyMode.strict ∧ s.errorPosition ≠ none) := by
      rintro ⟨_, hne⟩
      exact hne h.errNone
    rw [if_neg herr]
    by_cases hadv : s.currentCharIndex = w.length ∨ cfg.accuracyMode = AccuracyMode.relaxed
    · rw [if_pos hadv]
      exact inv_advanceWord cfg s _ rfl rfl hwi hbase
    · rw [if_neg hadv]
      exact hbase
  · rw [if_neg hsp]
    exact hbase

end TypingSpec

namespace TypingSpec

theorem inv_backspaceStep (cfg : TypingSettings) (s : SessionState) (w : List Char)
    (value : List Char)
    (hw : s.words.get? s.currentWordIndex = some w)
    (h : SessionInv cfg s) :
    SessionInv cfg (backspaceStep cfg s value) := by
  have hwi : s.currentWordIndex < s.words.length := (List.get?_eq_some.mp hw).1
  have hgD : s.words.getD s.currentWordIndex [] = w :=
    getD_eq_of_get?_eq_some _ _ _ _ hw
  have hne : s.words ≠ [] := by
    intro hc
    rw [hc] at hwi
    simp at hwi
  have holen : (charOffsets s.words).length = s.words.length := charOffsets_length _ hne
  rw [backspaceStep]
  by_cases h1 : s.currentCharIndex = 0 ∧ 0 < s.currentWordIndex
  · rw [if_pos h1]
    have hprevlt : s.currentWordIndex - 1 < s.words.length := by omega
    obtain ⟨prev, hprev⟩ : ∃ p, s.words.get? (s.currentWordIndex - 1) = some p :=
      ⟨_, List.get?_eq_get hprevlt⟩
    rw [hprev]
    dsimp only
    by_cases hpe : prev = []
    · rw [if_pos hpe]
      exact h
    · rw [if_neg hpe]
      have hgDp : s.words.getD (s.currentWordIndex - 1) [] = prev :=
        getD_eq_of_get?_eq_some _ _ _ _ hprev
      refine ⟨?_, ?_, ?_, ?_, ?_, ?_⟩
      · show s.currentWordIndex - 1 ≤ s.words.length
        omega
      · intro _ w' hw'
        have hw2 : s.words.get? (s.currentWordIndex - 1) = some w' := hw'
        have hww : w' = prev := Option.some.inj (hw2.symm.trans hprev)
        show prev.length ≤ w'.length
        rw [hww]
      · show s.correctChars.length = totalChars s.words
        exact h.bmLen
      · intro j hj
        show s.correctChars.getD j false = false
        rw [cursorFloor_lt
            { s with
              currentWordIndex := s.currentWordIndex - 1,
              currentCharIndex := prev.length,
              currentInput := prev }
            (show s.currentWordIndex - 1 < s.words.length from hprevlt)] at hj
        dsimp only at hj
        rw [hgDp] at hj
        have hsp := spacePos_succ s.words (s.currentWordIndex - 1) (by omega)
        have hspe : spacePos s.words (s.currentWordIndex - 1) =
            (charOffsets s.words).getD (s.currentWordIndex - 1) 0 + prev.length := by
          rw [spacePos, hgDp]
        have hrw : s.currentWordIndex - 1 + 1 = s.currentWordIndex := by omega
        rw [hrw] at hsp
        by_cases hj2 : j = spacePos s.words (s.currentWordIndex - 1)
        · rw [hj2]
          exact h.spacesFalse (s.currentWordIndex - 1) (by omega)
        · rw [hspe] at hj2 hsp
          apply h.beyond
          rw [cursorFloor_lt s hwi, h1.1]
          omega
      · intro k hk
        show s.correctChars.getD (spacePos s.words k) false = false
        exact h.spacesFalse k hk
      · show s.errorPosition = none
        exact h.errNone
  · rw [if_neg h1]
    by_cases h2 : 0 < s.currentCharIndex
    · rw [if_pos h2]
      refine ⟨h.wiBound, ?_, ?_, ?_, ?_, ?_⟩
      · intro hstrict w' hw'
        have hw2 : s.words.get? s.currentWordIndex = some w' := hw'
        have hww : w' = w := Option.some.inj (hw2.symm.trans hw)
        show s.currentCharIndex - 1 ≤ w'.length
        rw [hww]
        have := h.ciBound hstrict w hw
        omega
      · show (eraseBitmap s).length = totalChars s.words
        rw [eraseBitmap_length]
        exact h.bmLen
      · intro j hj
        rw [cursorFloor_lt
            { s with
              currentCharIndex := s.currentCharIndex - 1,
              currentInput := value,
              correctChars := eraseBitmap s,
              errorPosition := backspaceError cfg s }
            (show s.currentWordIndex < s.words.length from hwi)] at hj
        dsimp only at hj
        rw [hgD] at hj
        show (eraseBitmap s).getD j false = false
        simp only [eraseBitmap]
        rw [if_pos (show s.currentWordIndex < (charOffsets s.words).length by
          rw [holen]; exact hwi)]
        by_cases hj3 :
            (charOffsets s.words).getD s.currentWordIndex 0 + s.currentCharIndex - 1 = j
        · rw [← hj3]
          by_cases hlen2 :
              (charOffsets s.words).getD s.currentWordIndex 0 + s.currentCharIndex - 1 <
                s.correctChars.length
          · rw [if_pos hlen2, getD_set_self _ _ _ _ hlen2]
          · rw [if_neg hlen2]
            exact getD_of_length_le _ _ _ (by omega)
        · by_cases hlen2 :
              (charOffsets s.words).getD s.currentWordIndex 0 + s.currentCharIndex - 1 <
                s.correctChars.length
          · rw [if_pos hlen2, getD_set_of_ne _ _ _ _ _ hj3]
            apply h.beyond
            rw [cursorFloor_lt s hwi, hgD]
            omega
          · rw [if_neg hlen2]
            apply h.beyond
            rw [cursorFloor_lt s hwi, hgD]
            omega
      · intro k hk
        have hk2 : k + 1 < s.words.length := hk
        show (eraseBitmap s).getD (spacePos s.words k) false = false
        simp only [eraseBitmap]
        rw [if_pos (show s.currentWordIndex < (charOffsets s.words).length by
          rw [holen]; exact hwi)]
        by_cases hlen2 :
            (charOffsets s.words).getD s.currentWordIndex 0 + s.currentCharIndex - 1 <
              s.correctChars.length
        · rw [if_pos hlen2]
          by_cases heq :
              (charOffsets s.words).getD s.currentWordIndex 0 + s.currentCharIndex - 1 =
                spacePos s.words k
          · rw [← heq, getD_set_self _ _ _ _ hlen2]
          · rw [getD_set_of_ne _ _ _ _ _ heq]
            exact h.spacesFalse k hk2
        · rw [if_neg hlen2]
          exact h.spacesFalse k hk2
      · show backspaceError cfg s = none
        rw [backspaceError, h.errNone]
    · rw [if_neg h2]
      exact h

end TypingSpec

namespace TypingSpec

theorem inv_handleInputChange (cfg : TypingSettings) (s : SessionState)
    (value : List Char) (h : SessionInv cfg s) :
    SessionInv cfg (handleInputChange cfg s value) := by
  rw [handleInputChange]
  by_cases hc : s.testComplete = true
  · rw [if_pos hc]
    exact h
  · rw [if_neg hc]
    cases hg : s.words.get? s.currentWordIndex with
    | none => exact inv_activeState cfg s value h
    | some w =>
        dsimp only
        by_cases hwe : w = []
        · rw [if_pos hwe]
          exact inv_activeState cfg s value h
        · rw [if_neg hwe]
          by_cases hl1 : s.currentInput.length < value.length
          · rw [if_pos hl1]
            apply inv_charStep cfg _ w _ value ?_ (inv_activeState cfg s value h)
            rw [activeState_words, activeState_currentWordIndex]
            exact hg
          · rw [if_neg hl1]
            by_cases hl2 : value.length < s.currentInput.length
            · rw [if_pos hl2]
              apply inv_backspaceStep cfg _ w value ?_ (inv_activeState cfg s value h)
              rw [activeState_words, activeState_currentWordIndex]
              exact hg
            · rw [if_neg hl2]
              exact inv_activeState cfg s value h

theorem inv_applyTick (cfg : TypingSettings) (s : SessionState) (e : ℚ)
    (h : SessionInv cfg s) : SessionInv cfg (applyTick cfg s e) := by
  simp only [applyTick]
  split_ifs
  all_goals
    first
      | exact h
      | exact inv_setElapsed cfg s e h
      | exact inv_endTest cfg s _ (inv_setElapsed cfg s e h)
      | exact inv_endTest cfg s _ (inv_endTest cfg s _ (inv_setElapsed cfg s e h))

theorem inv_applyEvent (cfg : TypingSettings) (s : SessionState) (ev : TypingEvent)
    (h : SessionInv cfg s) : SessionInv cfg (applyEvent cfg s ev) := by
  cases ev with
  | key c => exact inv_handleInputChange cfg s _ h
  | backspace => exact inv_handleInputChange cfg s _ h
  | tick e => exact inv_applyTick cfg s e h

theorem inv_runEvents (cfg : TypingSettings) (s : SessionState)
    (evs : List TypingEvent) (h : SessionInv cfg s) :
    SessionInv cfg (runEvents cfg s evs) := by
  induction evs generalizing s with
  | nil => exact h
  | cons ev evs ih => exact ih _ (inv_applyEvent cfg s ev h)

end TypingSpec

namespace TypingSpec

theorem jsRound_eq_of (q : ℚ) (z : ℤ) (h1 : (z : ℚ) ≤ q + 1/2)
    (h2 : q + 1/2 < z + 1) : jsRound q = z := by
  rw [jsRound]
  exact Int.floor_eq_iff.mpr ⟨h1, by exact_mod_cast h2⟩

theorem getD_append_length {α : Type} (l : List α) (c d : α) :
    (l ++ [c]).getD l.length d = c := by
  induction l with
  | nil => rfl
  | cons a l ih => simp [ih]

theorem isCorrectChar_eq_true_iff (w : List Char) (i : ℕ) (c : Char) :
    isCorrectChar w i c = true ↔ w.get? i = some c := by
  rw [isCorrectChar]
  cases hg : w.get? i with
  | none =>
      dsimp only
      exact iff_of_false (by intro hx; exact Bool.false_ne_true hx)
        (by intro hx; exact Option.noConfusion hx)
  | some e =>
      dsimp only
      rw [Option.some_inj, beq_iff_eq]
      exact eq_comm

theorem typedChar_eq (l : List Char) (c : Char) :
    (l ++ [c]).getD ((l ++ [c]).length - 1) ' ' = c := by
  have h1 : (l ++ [c]).length - 1 = l.length := by simp
  rw [h1]
  exact getD_append_length l c ' '

theorem handleInputChange_complete (cfg : TypingSettings) (s : SessionState)
    (value : List Char) (hc : s.testComplete = true) :
    handleInputChange cfg s value = s := by
  rw [handleInputChange, if_pos hc]

theorem handleInputChange_noWord (cfg : TypingSettings) (s : SessionState)
    (value : List Char) (hc : s.testComplete = false)
    (hg : s.words.get? s.currentWordIndex = none) :
    handleInputChange cfg s value = activeState s value := by
  rw [handleInputChange, if_neg (by rw [hc]; simp), hg]

theorem handleInputChange_emptyWord (cfg : TypingSettings) (s : SessionState)
    (value : List Char) (hc : s.testComplete = false)
    (hg : s.words.get? s.currentWordIndex = some []) :
    handleInputChange cfg s value = activeState s value := by
  rw [handleInputChange, if_neg (by rw [hc]; simp), hg]
  dsimp only
  rw [if_pos rfl]

theorem applyKey_eq_charStep (cfg : TypingSettings) (s : SessionState) (c : Char)
    (w : List Char) (hc : s.testComplete = false)
    (hg : s.words.get? s.currentWordIndex = some w) (hwe : w ≠ []) :
    applyKey cfg s c =
      charStep cfg (activeState s (s.currentInput ++ [c])) w c
        (s.currentInput ++ [c]) := by
  rw [applyKey, handleInputChange, if_neg (by rw [hc]; simp), hg]
  dsimp only
  rw [if_neg hwe, if_pos (by simp), typedChar_eq]

theorem applyBackspace_eq_backspaceStep (cfg : TypingSettings) (s : SessionState)
    (w : List Char) (hc : s.testComplete = false)
    (hg : s.words.get? s.currentWordIndex = some w) (hwe : w ≠ [])
    (hne : s.currentInput ≠ []) :
    applyBackspace cfg s =
      backspaceStep cfg (activeState s s.currentInput.dropLast)
        s.currentInput.dropLast := by
  rw [applyBackspace, handleInputChange, if_neg (by rw [hc]; simp), hg]
  dsimp only
  have hlt : s.currentInput.dropLast.length < s.currentInput.length := by
    rw [List.length_dropLast]
    have : s.currentInput.length ≠ 0 := by
      intro hz
      exact hne (List.length_eq_zero.mp hz)
    omega
  rw [if_neg hwe, if_neg (by omega), if_pos hlt]

theorem charStep_of_ne_space (cfg : TypingSettings) (s : SessionState)
    (w : List Char) (c : Char) (value : List Char) (hsp : c ≠ ' ') :
    charStep cfg s w c value =
      { s with
        correctChars := writeBitmap s w (isCorrectChar w s.currentCharIndex c),
        currentCharIndex :=
          if cfg.accuracyMode = AccuracyMode.strict then
            (if isCorrectChar w s.currentCharIndex c then s.currentCharIndex + 1
             else s.currentCharIndex)
          else s.currentCharIndex + 1,
        currentInput := value } := by
  simp only [charStep]
  rw [if_neg hsp]

theorem backspaceStep_within (cfg : TypingSettings) (s : SessionState)
    (value : List Char) (h1 : ¬(s.currentCharIndex = 0 ∧ 0 < s.currentWordIndex))
    (h2 : 0 < s.currentCharIndex) :
    backspaceStep cfg s value =
      { s with
        currentCharIndex := s.currentCharIndex - 1,
        currentInput := value,
        correctChars := eraseBitmap s,
        errorPosition := backspaceError cfg s } := by
  rw [backspaceStep, if_neg h1, if_pos h2]

end TypingSpec

namespace TypingSpec

/-- C8: for every word sequence the offset table starts at 0, satisfies
`offsetTable[i+1] = offsetTable[i] + len(word[i]) + 1` for every pair of
consecutive entries, and each entry equals the sum of the lengths of all
preceding words plus one separator per preceding word. -/
theorem c8_charOffsets_recurrence (ws : List (List Char)) :
    (charOffsets ws).getD 0 0 = 0 ∧
    (∀ i : ℕ, i + 1 < (charOffsets ws).length →
      (charOffsets ws).getD (i + 1) 0 =
        (charOffsets ws).getD i 0 + (ws.getD i []).length + 1) ∧
    (∀ i : ℕ, i < (charOffsets ws).length →
      (charOffsets ws).getD i 0 =
        ((ws.take i).map (fun w => w.length + 1)).sum) := by
  refine ⟨charOffsets_zero ws, ?_, ?_⟩
  · intro i hi
    apply charOffsets_succ
    by_cases hne : ws = []
    · subst hne
      simp [charOffsets, offsetsTail] at hi
    · rw [charOffsets_length ws hne] at hi
      exact hi
  · intro i hi
    by_cases hne : ws = []
    · subst hne
      have hi0 : i = 0 := by
        simp [charOffsets, offsetsTail] at hi
        omega
      subst hi0
      rfl
    · rw [charOffsets_length ws hne] at hi
      exact charOffsets_getD_eq_sum ws i hi

/-- C8 witness: a concrete instance of the recurrence on `["a", "bc"]`. -/
theorem c8_witness :
    (charOffsets [['a'], ['b', 'c']]).getD 1 0 =
      (charOffsets [['a'], ['b', 'c']]).getD 0 0 +
        ([['a'], ['b', 'c']].getD 0 []).length + 1 :=
  (c8_charOffsets_recurrence [['a'], ['b', 'c']]).2.1 0 (by decide)

/-- C2 counterexample: under the relaxed policy (the default settings),
typing the word `abc` correctly and then one extra character `x` leaves the
session on word 0 (of 1 words, not complete) with `charIndex = 4`, which is
outside the bounds of the three-character current word — refuting the claim
that `0 <= charIndex <= len(words[wordIndex])` holds after every keystroke. -/
theorem c2_counterexample :
    (runEvents DEFAULT_SETTINGS (resetState DEFAULT_STATS [['a', 'b', 'c']])
        [TypingEvent.key 'a', TypingEvent.key 'b', TypingEvent.key 'c',
         TypingEvent.key 'x']).currentWordIndex = 0 ∧
    (runEvents DEFAULT_SETTINGS (resetState DEFAULT_STATS [['a', 'b', 'c']])
        [TypingEvent.key 'a', TypingEvent.key 'b', TypingEvent.key 'c',
         TypingEvent.key 'x']).currentCharIndex = 4 ∧
    (runEvents DEFAULT_SETTINGS (resetState DEFAULT_STATS [['a', 'b', 'c']])
        [TypingEvent.key 'a', TypingEvent.key 'b', TypingEvent.key 'c',
         TypingEvent.key 'x']).testComplete = false := by
  refine ⟨?_, ?_, ?_⟩ <;> decide

/-- C2 (amended): after any event sequence from a fresh session,
`0 <= wordIndex <= len(words)` always holds, and under the strict policy
`0 <= charIndex <= len(words[wordIndex])` holds while `wordIndex <
len(words)`; under the relaxed policy `charIndex` can exceed the current
word's length (see the counterexample), since it is reset only on word
advancement. -/
theorem c2_amended_invariant (cfg : TypingSettings) (stats : TypingStats)
    (ws : List (List Char)) (evs : List TypingEvent) :
    (runEvents cfg (resetState stats ws) evs).currentWordIndex ≤
      (runEvents cfg (resetState stats ws) evs).words.length ∧
    (cfg.accuracyMode = AccuracyMode.strict →
      ∀ w : List Char,
        (runEvents cfg (resetState stats ws) evs).words.get?
            (runEvents cfg (resetState stats ws) evs).currentWordIndex = some w →
        (runEvents cfg (resetState stats ws) evs).currentCharIndex ≤ w.length) := by
  have h := inv_runEvents cfg (resetState stats ws) evs (inv_resetState cfg stats ws)
  exact ⟨h.wiBound, h.ciBound⟩

/-- C2 witness: the amended invariant evaluated on a concrete strict-mode
session. -/
theorem c2_witness :
    (runEvents strictSettings (resetState DEFAULT_STATS [['a', 'b']])
        [TypingEvent.key 'a']).currentWordIndex ≤
      (runEvents strictSettings (resetState DEFAULT_STATS [['a', 'b']])
        [TypingEvent.key 'a']).words.length ∧
    (runEvents strictSettings (resetState DEFAULT_STATS [['a', 'b']])
        [TypingEvent.key 'a']).currentCharIndex ≤ 2 :=
  ⟨(c2_amended_invariant strictSettings DEFAULT_STATS [['a', 'b']]
      [TypingEvent.key 'a']).1,
   (c2_amended_invariant strictSettings DEFAULT_STATS [['a', 'b']]
      [TypingEvent.key 'a']).2 rfl ['a', 'b'] (by decide)⟩

end TypingSpec

namespace TypingSpec

theorem errorPosition_endTest (s0 s : SessionState) :
    (endTest s0 s).errorPosition = s.errorPosition := rfl

theorem errorPosition_advanceWord (cfg : TypingSettings) (s0 base : SessionState) :
    (advanceWord cfg s0 base).errorPosition = none := by
  simp only [advanceWord]
  split_ifs <;> rfl

theorem errorPosition_charStep (cfg : TypingSettings) (s : SessionState)
    (w : List Char) (c : Char) (value : List Char) (h : s.errorPosition = none) :
    (charStep cfg s w c value).errorPosition = none := by
  simp only [charStep]
  split_ifs
  all_goals first | exact h | exact errorPosition_advanceWord cfg s _

theorem errorPosition_backspaceStep (cfg : TypingSettings) (s : SessionState)
    (value : List Char) (h : s.errorPosition = none) :
    (backspaceStep cfg s value).errorPosition = none := by
  rw [backspaceStep]
  split_ifs
  · cases hp : s.words.get? (s.currentWordIndex - 1) with
    | none => exact h
    | some prev =>
        dsimp only
        split_ifs <;> exact h
  · show backspaceError cfg s = none
    rw [backspaceError, h]
  · exact h

theorem errorPosition_handleInputChange (cfg : TypingSettings) (s : SessionState)
    (value : List Char) (h : s.errorPosition = none) :
    (handleInputChange cfg s value).errorPosition = none := by
  rw [handleInputChange]
  by_cases hc : s.testComplete = true
  · rw [if_pos hc]
    exact h
  · rw [if_neg hc]
    cases hg : s.words.get? s.currentWordIndex with
    | none =>
        rw [activeState_errorPosition]
        exact h
    | some w =>
        dsimp only
        split_ifs
        all_goals
          first
            | exact errorPosition_charStep cfg _ w _ value
                ((activeState_errorPosition s value).trans h)
            | exact errorPosition_backspaceStep cfg _ value
                ((activeState_errorPosition s value).trans h)
            | rw [activeState_errorPosition]
              exact h

theorem errorPosition_applyTick (cfg : TypingSettings) (s : SessionState) (e : ℚ)
    (h : s.errorPosition = none) :
    (applyTick cfg s e).errorPosition = none := by
  simp only [applyTick]
  split_ifs <;> exact h

/-- C4: the code never records the strict-mode error marker.  The first
conjunct shows that no transition ever sets `errorPosition` to a non-null
value (`setErrorPosition` is only ever called with `null`); the remaining
conjuncts evaluate the failing input — strict policy, word `ab`, incorrect
first keystroke `x` — after which the marker is still `none` even though the
keystroke was incorrect (the cursor simply does not advance). -/
theorem c4_error_marker_never_set :
    (∀ (cfg : TypingSettings) (s : SessionState) (ev : TypingEvent),
      s.errorPosition = none → (applyEvent cfg s ev).errorPosition = none) ∧
    isCorrectChar ['a', 'b'] 0 'x' = false ∧
    (applyKey strictSettings (resetState DEFAULT_STATS [['a', 'b']]) 'x').errorPosition
      = none ∧
    (applyKey strictSettings (resetState DEFAULT_STATS [['a', 'b']]) 'x').currentCharIndex
      = 0 := by
  refine ⟨?_, by decide, by decide, by decide⟩
  intro cfg s ev h
  cases ev with
  | key c => exact errorPosition_handleInputChange cfg s _ h
  | backspace => exact errorPosition_handleInputChange cfg s _ h
  | tick e => exact errorPosition_applyTick cfg s e h

/-- C4 witness: the never-set property applied at a concrete state and
keystroke. -/
theorem c4_witness :
    (applyEvent strictSettings (resetState DEFAULT_STATS [['a', 'b']])
      (TypingEvent.key 'x')).errorPosition = none :=
  c4_error_marker_never_set.1 strictSettings (resetState DEFAULT_STATS [['a', 'b']])
    (TypingEvent.key 'x') rfl

end TypingSpec

namespace TypingSpec

/-- C1: evaluation of the code at the claimed scenario.  With words
`["the","cat"]` under the strict policy, typing `t`,`h`,`e`,space,`c`,`a`,`t`
and then the final separator ends the session with the cursor at wordIndex 2
(Complete), and `endTest` computes its metrics from the snapshot state that
preceded the final separator: completed character count
`offsetTable[1] + 3 = 7` as claimed, but the correct character count is `6`
and the accuracy `round(100*6/7) = 86`, not the claimed `7` and `100`: the
separator position (absolute position 3) is never written in the correctness
bitmap (the write is guarded by `charIndex < word.length`) although it is
counted in the completed characters. -/
theorem c1_scenario_evaluation :
    getCompletedCharCount (runEvents strictSettings
      (resetState DEFAULT_STATS [['t', 'h', 'e'], ['c', 'a', 't']])
      [TypingEvent.key 't', TypingEvent.key 'h', TypingEvent.key 'e',
       TypingEvent.key ' ', TypingEvent.key 'c', TypingEvent.key 'a',
       TypingEvent.key 't']) = 7 ∧
    getCorrectCharCount (runEvents strictSettings
      (resetState DEFAULT_STATS [['t', 'h', 'e'], ['c', 'a', 't']])
      [TypingEvent.key 't', TypingEvent.key 'h', TypingEvent.key 'e',
       TypingEvent.key ' ', TypingEvent.key 'c', TypingEvent.key 'a',
       TypingEvent.key 't']) = 6 ∧
    calculateAccuracy (runEvents strictSettings
      (resetState DEFAULT_STATS [['t', 'h', 'e'], ['c', 'a', 't']])
      [TypingEvent.key 't', TypingEvent.key 'h', TypingEvent.key 'e',
       TypingEvent.key ' ', TypingEvent.key 'c', TypingEvent.key 'a',
       TypingEvent.key 't']) = 86 ∧
    (runEvents strictSettings
      (resetState DEFAULT_STATS [['t', 'h', 'e'], ['c', 'a', 't']])
      [TypingEvent.key 't', TypingEvent.key 'h', TypingEvent.key 'e',
       TypingEvent.key ' ', TypingEvent.key 'c', TypingEvent.key 'a',
       TypingEvent.key 't', TypingEvent.key ' ']).currentWordIndex = 2 ∧
    (runEvents strictSettings
      (resetState DEFAULT_STATS [['t', 'h', 'e'], ['c', 'a', 't']])
      [TypingEvent.key 't', TypingEvent.key 'h', TypingEvent.key 'e',
       TypingEvent.key ' ', TypingEvent.key 'c', TypingEvent.key 'a',
       TypingEvent.key 't', TypingEvent.key ' ']).testComplete = true ∧
    (runEvents strictSettings
      (resetState DEFAULT_STATS [['t', 'h', 'e'], ['c', 'a', 't']])
      [TypingEvent.key 't', TypingEvent.key 'h', TypingEvent.key 'e',
       TypingEvent.key ' ', TypingEvent.key 'c', TypingEvent.key 'a',
       TypingEvent.key 't', TypingEvent.key ' ']).stats.correctChars = 6 ∧
    (runEvents strictSettings
      (resetState DEFAULT_STATS [['t', 'h', 'e'], ['c', 'a', 't']])
      [TypingEvent.key 't', TypingEvent.key 'h', TypingEvent.key 'e',
       TypingEvent.key ' ', TypingEvent.key 'c', TypingEvent.key 'a',
       TypingEvent.key 't', TypingEvent.key ' ']).stats.totalChars = 7 := by
  refine ⟨by decide, by decide, ?_, by decide, by decide, by decide, by decide⟩
  have h7 : getCompletedCharCount (runEvents strictSettings
      (resetState DEFAULT_STATS [['t', 'h', 'e'], ['c', 'a', 't']])
      [TypingEvent.key 't', TypingEvent.key 'h', TypingEvent.key 'e',
       TypingEvent.key ' ', TypingEvent.key 'c', TypingEvent.key 'a',
       TypingEvent.key 't']) = 7 := by decide
  have h6 : getCorrectCharCount (runEvents strictSettings
      (resetState DEFAULT_STATS [['t', 'h', 'e'], ['c', 'a', 't']])
      [TypingEvent.key 't', TypingEvent.key 'h', TypingEvent.key 'e',
       TypingEvent.key ' ', TypingEvent.key 'c', TypingEvent.key 'a',
       TypingEvent.key 't']) = 6 := by decide
  simp only [calculateAccuracy]
  rw [h6, h7, if_neg (by norm_num)]
  apply jsRound_eq_of <;> norm_num

end TypingSpec

namespace TypingSpec

/-- C6: on session completion the aggregate stats are updated as
`bestWpm = max(previousBest, sessionWpm)`,
`accuracy = round((previousAccuracy + sessionAccuracy) / 2)`, additive
accumulation of the three character counters, and `completedTests + 1`;
and the concrete two-session scenario (session accuracies 80 then 100 from
default stats) stores accuracy 40 and then 70. -/
theorem c6_stats_merge :
    (∀ s0 s : SessionState,
      (endTest s0 s).stats.wpm = max s0.stats.wpm (sessionWpm s0) ∧
      (endTest s0 s).stats.accuracy =
        jsRound (((s0.stats.accuracy : ℚ) + ((calculateAccuracy s0 : ℤ) : ℚ)) / 2) ∧
      (endTest s0 s).stats.correctChars =
        s0.stats.correctChars + (getCorrectCharCount s0 : ℤ) ∧
      (endTest s0 s).stats.incorrectChars =
        s0.stats.incorrectChars +
          ((getCompletedCharCount s0 : ℤ) - (getCorrectCharCount s0 : ℤ)) ∧
      (endTest s0 s).stats.totalChars =
        s0.stats.totalChars + (getCompletedCharCount s0 : ℤ) ∧
      (endTest s0 s).stats.completedTests = s0.stats.completedTests + 1) ∧
    statsScenarioFirst.stats.accuracy = 40 ∧
    statsScenarioSecond.stats.accuracy = 70 := by
  have hacc80 : calculateAccuracy (runEvents DEFAULT_SETTINGS
      (resetState DEFAULT_STATS [['a', 'b', 'c', 'd', 'e']])
      [TypingEvent.key 'a', TypingEvent.key 'b', TypingEvent.key 'c',
       TypingEvent.key 'd', TypingEvent.key 'x']) = 80 := by
    have hc : getCompletedCharCount (runEvents DEFAULT_SETTINGS
        (resetState DEFAULT_STATS [['a', 'b', 'c', 'd', 'e']])
        [TypingEvent.key 'a', TypingEvent.key 'b', TypingEvent.key 'c',
         TypingEvent.key 'd', TypingEvent.key 'x']) = 5 := by decide
    have hk : getCorrectCharCount (runEvents DEFAULT_SETTINGS
        (resetState DEFAULT_STATS [['a', 'b', 'c', 'd', 'e']])
        [TypingEvent.key 'a', TypingEvent.key 'b', TypingEvent.key 'c',
         TypingEvent.key 'd', TypingEvent.key 'x']) = 4 := by decide
    simp only [calculateAccuracy]
    rw [hc, hk, if_neg (by norm_num)]
    apply jsRound_eq_of <;> norm_num
  have hfirst : statsScenarioFirst.stats.accuracy = 40 := by
    have h1 : statsScenarioFirst.stats.accuracy =
        jsRound ((((runEvents DEFAULT_SETTINGS
            (resetState DEFAULT_STATS [['a', 'b', 'c', 'd', 'e']])
            [TypingEvent.key 'a', TypingEvent.key 'b', TypingEvent.key 'c',
             TypingEvent.key 'd', TypingEvent.key 'x']).stats.accuracy : ℚ) +
          ((calculateAccuracy (runEvents DEFAULT_SETTINGS
            (resetState DEFAULT_STATS [['a', 'b', 'c', 'd', 'e']])
            [TypingEvent.key 'a', TypingEvent.key 'b', TypingEvent.key 'c',
             TypingEvent.key 'd', TypingEvent.key 'x']) : ℤ) : ℚ)) / 2) := rfl
    have h0 : (runEvents DEFAULT_SETTINGS
        (resetState DEFAULT_STATS [['a', 'b', 'c', 'd', 'e']])
        [TypingEvent.key 'a', TypingEvent.key 'b', TypingEvent.key 'c',
         TypingEvent.key 'd', TypingEvent.key 'x']).stats.accuracy = 0 := by decide
    rw [h1, h0, hacc80]
    apply jsRound_eq_of <;> norm_num
  refine ⟨fun s0 s => ⟨rfl, rfl, rfl, rfl, rfl, rfl⟩, hfirst, ?_⟩
  have hacc100 : calculateAccuracy (runEvents DEFAULT_SETTINGS
      (resetState statsScenarioFirst.stats [['a', 'b', 'c', 'd', 'e']])
      [TypingEvent.key 'a', TypingEvent.key 'b', TypingEvent.key 'c',
       TypingEvent.key 'd']) = 100 := by
    have hc : getCompletedCharCount (runEvents DEFAULT_SETTINGS
        (resetState statsScenarioFirst.stats [['a', 'b', 'c', 'd', 'e']])
        [TypingEvent.key 'a', TypingEvent.key 'b', TypingEvent.key 'c',
         TypingEvent.key 'd']) = 4 := by decide
    have hk : getCorrectCharCount (runEvents DEFAULT_SETTINGS
        (resetState statsScenarioFirst.stats [['a', 'b', 'c', 'd', 'e']])
        [TypingEvent.key 'a', TypingEvent.key 'b', TypingEvent.key 'c',
         TypingEvent.key 'd']) = 4 := by decide
    simp only [calculateAccuracy]
    rw [hc, hk, if_neg (by norm_num)]
    apply jsRound_eq_of <;> norm_num
  have h2 : statsScenarioSecond.stats.accuracy =
      jsRound (((statsScenarioFirst.stats.accuracy : ℚ) +
        ((calculateAccuracy (runEvents DEFAULT_SETTINGS
          (resetState statsScenarioFirst.stats [['a', 'b', 'c', 'd', 'e']])
          [TypingEvent.key 'a', TypingEvent.key 'b', TypingEvent.key 'c',
           TypingEvent.key 'd']) : ℤ) : ℚ)) / 2) := rfl
  rw [h2, hfirst, hacc100]
  apply jsRound_eq_of <;> norm_num

end TypingSpec

namespace TypingSpec

theorem updateParticipants_name_mem (u : String) (w a : ℤ) (ps : List Participant)
    (q : Participant) (hq : q ∈ updateParticipants u w a ps) :
    q.name = u ∨ q.name ∈ ps.map Participant.name := by
  induction ps with
  | nil =>
      left
      rw [updateParticipants] at hq
      rcases List.mem_singleton.mp hq with rfl
      rfl
  | cons p ps ih =>
      rw [updateParticipants] at hq
      by_cases hname : p.name = u
      · rw [if_pos hname] at hq
        rcases List.mem_cons.mp hq with rfl | hq2
        · left
          split_ifs <;> exact hname
        · right
          simp only [List.map_cons, List.mem_cons]
          right
          exact List.mem_map_of_mem Participant.name hq2
      · rw [if_neg hname] at hq
        rcases List.mem_cons.mp hq with rfl | hq2
        · right
          simp only [List.map_cons, List.mem_cons]
          left
          trivial
        · rcases ih hq2 with h1 | h1
          · left
            exact h1
          · right
            simp only [List.map_cons, List.mem_cons]
            right
            exact h1

/-- C7: within one challenge no two participant records share a name
(`updateChallengeResult` preserves name-distinctness from the empty
creation state); an existing record for the submitting name is overwritten
only when the new WPM is strictly greater and kept unchanged otherwise; and
two successive submissions for the same fresh name keep the first record
whenever the second WPM is not strictly greater. -/
theorem c7_challenge_update (u : String) (w a w2 a2 : ℤ) (ps : List Participant)
    (h : (ps.map Participant.name).Nodup) :
    ((updateParticipants u w a ps).map Participant.name).Nodup ∧
    (∀ p ∈ ps, p.name = u → ¬p.wpm < w → p ∈ updateParticipants u w a ps) ∧
    (∀ p ∈ ps, p.name = u → p.wpm < w →
      ({ name := u, wpm := w, accuracy := a } : Participant) ∈
        updateParticipants u w a ps) ∧
    updateParticipants u w2 a2 (updateParticipants u w a []) =
      [if w < w2 then { name := u, wpm := w2, accuracy := a2 }
       else { name := u, wpm := w, accuracy := a }] := by
  refine ⟨?_, ?_, ?_, ?_⟩
  · induction ps with
    | nil => simp [updateParticipants]
    | cons p ps ih =>
        simp only [List.map_cons, List.nodup_cons] at h
        by_cases hname : p.name = u
        · rw [updateParticipants, if_pos hname]
          simp only [List.map_cons, List.nodup_cons]
          constructor
          · have hh : (if p.wpm < w
                then ({ name := p.name, wpm := w, accuracy := a } : Participant)
                else p).name = p.name := by
              split_ifs <;> rfl
            rw [hh]
            exact h.1
          · exact h.2
        · rw [updateParticipants, if_neg hname]
          simp only [List.map_cons, List.nodup_cons]
          refine ⟨?_, ih h.2⟩
          intro hmem
          rcases List.mem_map.mp hmem with ⟨q, hq, hqn⟩
          rcases updateParticipants_name_mem u w a ps q hq with h1 | h1
          · exact hname (hqn.symm.trans h1)
          · exact h.1 (hqn ▸ h1)
  · intro p hp hpn hpw
    clear h
    induction ps with
    | nil => simp at hp
    | cons q ps ih =>
        rw [updateParticipants]
        rcases List.mem_cons.mp hp with rfl | hp2
        · rw [if_pos hpn, if_neg hpw]
          exact List.mem_cons_self _ _
        · by_cases hname : q.name = u
          · rw [if_pos hname]
            exact List.mem_cons_of_mem _ hp2
          · rw [if_neg hname]
            exact List.mem_cons_of_mem _ (ih hp2)
  · intro p hp hpn hpw
    induction ps with
    | nil => simp at hp
    | cons q ps ih =>
        simp only [List.map_cons, List.nodup_cons] at h
        rw [updateParticipants]
        rcases List.mem_cons.mp hp with rfl | hp2
        · rw [if_pos hpn, if_pos hpw, hpn]
          exact List.mem_cons_self _ _
        · by_cases hname : q.name = u
          · exfalso
            apply h.1
            rw [hname]
            rw [← hpn]
            exact List.mem_map_of_mem Participant.name hp2
          · rw [if_neg hname]
            exact List.mem_cons_of_mem _ (ih h.2 hp2)
  · rw [updateParticipants, updateParticipants, if_pos rfl]

/-- C7 witness: submitting WPM 40 then WPM 35 for the same name retains
WPM 40 — the unchanged record stays in the list. -/
theorem c7_witness :
    ({ name := "alice", wpm := 40, accuracy := 96 } : Participant) ∈
      updateParticipants "alice" 35 97
        [{ name := "alice", wpm := 40, accuracy := 96 }] :=
  (c7_challenge_update "alice" 35 97 0 0
      [{ name := "alice", wpm := 40, accuracy := 96 }] (by simp)).2.1
    { name := "alice", wpm := 40, accuracy := 96 } (by simp) rfl (by decide)

end TypingSpec

namespace TypingSpec

theorem empty_words_step (cfg : TypingSettings) (s : SessionState) (ev : TypingEvent)
    (hmode : cfg.mode = TypingMode.words) (hw : s.words = [])
    (hc : s.testComplete = false) :
    (applyEvent cfg s ev).testComplete = false ∧ (applyEvent cfg s ev).words = [] := by
  have hg : s.words.get? s.currentWordIndex = none := by
    rw [hw]
    simp
  cases ev with
  | key c =>
      show (handleInputChange cfg s (s.currentInput ++ [c])).testComplete = false ∧
        (handleInputChange cfg s (s.currentInput ++ [c])).words = []
      rw [handleInputChange_noWord cfg s _ hc hg]
      exact ⟨(activeState_testComplete s _).trans hc, (activeState_words s _).trans hw⟩
  | backspace =>
      show (handleInputChange cfg s s.currentInput.dropLast).testComplete = false ∧
        (handleInputChange cfg s s.currentInput.dropLast).words = []
      rw [handleInputChange_noWord cfg s _ hc hg]
      exact ⟨(activeState_testComplete s _).trans hc, (activeState_words s _).trans hw⟩
  | tick e =>
      show (applyTick cfg s e).testComplete = false ∧ (applyTick cfg s e).words = []
      have hnt : cfg.mode ≠ TypingMode.time := by
        rw [hmode]
        intro hx
        cases hx
      simp only [applyTick]
      by_cases h1 : s.testActive = true ∧ s.testComplete = false
      · rw [if_pos h1, if_neg (fun hx => hnt hx.1), if_neg (fun hx => hnt hx.1)]
        exact ⟨hc, hw⟩
      · rw [if_neg h1]
        exact ⟨hc, hw⟩

theorem empty_words_run (cfg : TypingSettings) (s : SessionState)
    (evs : List TypingEvent) (hmode : cfg.mode = TypingMode.words)
    (hw : s.words = []) (hc : s.testComplete = false) :
    (runEvents cfg s evs).testComplete = false := by
  induction evs generalizing s with
  | nil => exact hc
  | cons ev evs ih =>
      have h := empty_words_step cfg s ev hmode hw hc
      exact ih _ h.2 h.1

/-- C9 counterexample: with an empty word sequence in word-count mode, the
session does not complete — neither the activating keystroke nor a later
timer tick (here at 1000 seconds elapsed) transitions it to Complete,
refuting the claim that it completes immediately in both modes. -/
theorem c9_counterexample :
    (applyTick wordsSettings
      (applyKey wordsSettings (resetState DEFAULT_STATS []) 'a') 1000).testComplete
      = false := by decide

/-- C9 (amended): with an empty word sequence the session never faults:
keystrokes are ignored by the missing-word safety check (only activating the
test).  In time mode the first timer tick after activation transitions the
session to Complete with zero completed characters and WPM 0 (the reported
accuracy is the degenerate 100, and the aggregate character counters are
unchanged).  In word-count mode the session never transitions to Complete,
whatever further events occur. -/
theorem c9_amended (cfg : TypingSettings) (stats : TypingStats) (c : Char)
    (e : ℚ) (evs : List TypingEvent) :
    (cfg.mode = TypingMode.time →
      (applyTick cfg (applyKey cfg (resetState stats []) c) e).testComplete = true ∧
      getCompletedCharCount (applyKey cfg (resetState stats []) c) = 0 ∧
      sessionWpm (applyKey cfg (resetState stats []) c) = 0 ∧
      calculateAccuracy (applyKey cfg (resetState stats []) c) = 100 ∧
      (applyTick cfg (applyKey cfg (resetState stats []) c) e).stats.totalChars =
        stats.totalChars ∧
      (applyTick cfg (applyKey cfg (resetState stats []) c) e).stats.wpm =
        max stats.wpm 0) ∧
    (cfg.mode = TypingMode.words →
      (runEvents cfg (applyKey cfg (resetState stats []) c) evs).testComplete
        = false) := by
  constructor
  · intro hmode
    have hwpm : sessionWpm (applyKey cfg (resetState stats []) c) = 0 := by
      simp only [sessionWpm]
      rw [show (applyKey cfg (resetState stats []) c).timeElapsed = (0:ℚ) from rfl]
      rw [if_pos (by norm_num)]
    have htick : applyTick cfg (applyKey cfg (resetState stats []) c) e =
        endTest (applyKey cfg (resetState stats []) c)
          (if cfg.mode = TypingMode.time ∧ (cfg.timeLimit : ℚ) ≤ e then
            endTest (applyKey cfg (resetState stats []) c)
              { applyKey cfg (resetState stats []) c with timeElapsed := e }
          else { applyKey cfg (resetState stats []) c with timeElapsed := e }) := by
      simp only [applyTick]
      rw [if_pos (show (applyKey cfg (resetState stats []) c).testActive = true ∧
          (applyKey cfg (resetState stats []) c).testComplete = false
          from ⟨rfl, rfl⟩)]
      rw [if_pos (show cfg.mode = TypingMode.time ∧
          (applyKey cfg (resetState stats []) c).words.length ≤
            (applyKey cfg (resetState stats []) c).currentWordIndex
          from ⟨hmode, Nat.le_refl 0⟩)]
    refine ⟨?_, rfl, hwpm, rfl, ?_, ?_⟩
    · rw [htick]
      rfl
    · rw [htick]
      show stats.totalChars + ((0:ℕ):ℤ) = stats.totalChars
      simp
    · rw [htick]
      show max stats.wpm (sessionWpm (applyKey cfg (resetState stats []) c)) =
        max stats.wpm 0
      rw [hwpm]
  · intro hmode
    exact empty_words_run cfg (applyKey cfg (resetState stats []) c) evs hmode rfl rfl

/-- C9 witness: both amended behaviours at concrete inputs. -/
theorem c9_witness :
    (applyTick DEFAULT_SETTINGS
      (applyKey DEFAULT_SETTINGS (resetState DEFAULT_STATS []) 'a') 5).testComplete
      = true ∧
    (runEvents wordsSettings (applyKey wordsSettings (resetState DEFAULT_STATS []) 'a')
      [TypingEvent.tick 5]).testComplete = false :=
  ⟨((c9_amended DEFAULT_SETTINGS DEFAULT_STATS 'a' 5 []).1 rfl).1,
   (c9_amended wordsSettings DEFAULT_STATS 'a' 5 [TypingEvent.tick 5]).2 rfl⟩

end TypingSpec

namespace TypingSpec

/-- C3: for a character (non-separator) keystroke on a session that is not
complete, under the strict policy `charIndex` advances by one exactly when
the typed character equals the expected character
`words[wordIndex][charIndex]` (so the strict policy never advances past a
mistyped character without a corrective retype), and under the relaxed
policy `charIndex` always advances by one regardless of correctness whenever
the current word is present and nonempty (the code's safety check drops the
keystroke when `words[wordIndex]` is missing or the empty string; corpus
words are nonempty). -/
theorem c3_charIndex_advance (cfg : TypingSettings) (s : SessionState) (c : Char)
    (hc : s.testComplete = false) (hsp : c ≠ ' ') :
    (cfg.accuracyMode = AccuracyMode.strict →
      ((applyKey cfg s c).currentCharIndex = s.currentCharIndex + 1 ↔
        (s.words.getD s.currentWordIndex []).get? s.currentCharIndex = some c)) ∧
    (cfg.accuracyMode = AccuracyMode.relaxed →
      s.words.getD s.currentWordIndex [] ≠ [] →
      (applyKey cfg s c).currentCharIndex = s.currentCharIndex + 1) := by
  cases hg : s.words.get? s.currentWordIndex with
  | none =>
      have hlen : s.words.length ≤ s.currentWordIndex := List.get?_eq_none.mp hg
      have hkey : applyKey cfg s c = activeState s (s.currentInput ++ [c]) :=
        handleInputChange_noWord cfg s _ hc hg
      constructor
      · intro _
        rw [hkey, activeState_currentCharIndex]
        constructor
        · intro hx
          omega
        · intro hx
          rw [getD_of_length_le _ _ _ hlen] at hx
          simp at hx
      · intro _ hne'
        exact absurd (getD_of_length_le _ _ _ hlen) hne'
  | some w =>
      have hgD : s.words.getD s.currentWordIndex [] = w :=
        getD_eq_of_get?_eq_some _ _ _ _ hg
      by_cases hwe : w = []
      · have hkey : applyKey cfg s c = activeState s (s.currentInput ++ [c]) :=
          handleInputChange_emptyWord cfg s _ hc (hwe ▸ hg)
        constructor
        · intro _
          rw [hkey, activeState_currentCharIndex]
          refine iff_of_false (by omega) ?_
          rw [hgD, hwe]
          intro hx
          simp at hx
        · intro _ hne'
          rw [hgD] at hne'
          exact absurd hwe hne'
      · have hkey := applyKey_eq_charStep cfg s c w hc hg hwe
        rw [hkey, charStep_of_ne_space cfg _ w c _ hsp]
        dsimp only
        rw [activeState_currentCharIndex]
        constructor
        · intro hstrict
          rw [if_pos hstrict, hgD]
          by_cases hic : isCorrectChar w s.currentCharIndex c = true
          · rw [if_pos hic]
            exact iff_of_true rfl ((isCorrectChar_eq_true_iff w _ c).mp hic)
          · rw [if_neg hic]
            exact iff_of_false (by omega)
              (fun hx => hic ((isCorrectChar_eq_true_iff w _ c).mpr hx))
        · intro hrelaxed _
          rw [if_neg (by rw [hrelaxed]; intro hx; cases hx)]

/-- C3 witness: a correct strict-mode keystroke advances the cursor, and any
relaxed-mode character keystroke advances the cursor. -/
theorem c3_witness :
    (applyKey strictSettings (resetState DEFAULT_STATS [['a', 'b']]) 'a').currentCharIndex
      = 1 ∧
    (applyKey DEFAULT_SETTINGS (resetState DEFAULT_STATS [['a', 'b']]) 'x').currentCharIndex
      = 1 := by
  constructor
  · exact ((c3_charIndex_advance strictSettings (resetState DEFAULT_STATS [['a', 'b']])
      'a' rfl (by decide)).1 rfl).mpr (by decide)
  · exact (c3_charIndex_advance DEFAULT_SETTINGS (resetState DEFAULT_STATS [['a', 'b']])
      'x' rfl (by decide)).2 rfl (by decide)

end TypingSpec

namespace TypingSpec

theorem advanceWord_correctChars (cfg : TypingSettings) (s0 base : SessionState) :
    (advanceWord cfg s0 base).correctChars = base.correctChars := by
  simp only [advanceWord]
  split_ifs <;> rfl

theorem charStep_correctChars (cfg : TypingSettings) (s : SessionState)
    (w : List Char) (c : Char) (value : List Char) :
    (charStep cfg s w c value).correctChars =
      writeBitmap s w (isCorrectChar w s.currentCharIndex c) := by
  simp only [charStep]
  split_ifs <;> first | rfl | rw [advanceWord_correctChars]

theorem writeBitmap_activeState (s : SessionState) (value : List Char)
    (w : List Char) (b : Bool) :
    writeBitmap (activeState s value) w b = writeBitmap s w b := by
  rw [writeBitmap, writeBitmap, activeState_words, activeState_currentWordIndex,
    activeState_currentCharIndex, activeState_correctChars]

theorem eraseBitmap_activeState (s : SessionState) (value : List Char) :
    eraseBitmap (activeState s value) = eraseBitmap s := by
  simp only [eraseBitmap]
  rw [activeState_words, activeState_currentWordIndex, activeState_currentCharIndex,
    activeState_correctChars]

theorem bool_eq_false_of_ne_true (b : Bool) (h : ¬b = true) : b = false := by
  cases b
  · rfl
  · exact absurd rfl h

/-- C10: a single character keystroke writes at most the one bitmap entry at
`offset[wordIndex] + charIndex` — it leaves every other entry unchanged,
writes that entry (with the keystroke's correctness) exactly when
`charIndex` is within the current word's length, and writes nothing at all
when it is not — and a within-word backspace (on a present, nonempty
current word) leaves every entry other than the now-uncommitted position
`offset[wordIndex] + charIndex - 1` unchanged and makes that position
false. -/
theorem c10_bitmap_frame :
    (∀ (cfg : TypingSettings) (s : SessionState) (c : Char) (p : ℕ),
      p ≠ (charOffsets s.words).getD s.currentWordIndex 0 + s.currentCharIndex →
      (applyKey cfg s c).correctChars.getD p false = s.correctChars.getD p false) ∧
    (∀ (cfg : TypingSettings) (s : SessionState) (c : Char) (w : List Char),
      s.testComplete = false →
      s.words.get? s.currentWordIndex = some w →
      s.currentCharIndex < w.length →
      (applyKey cfg s c).correctChars =
        s.correctChars.set
          ((charOffsets s.words).getD s.currentWordIndex 0 + s.currentCharIndex)
          (isCorrectChar w s.currentCharIndex c)) ∧
    (∀ (cfg : TypingSettings) (s : SessionState) (c : Char) (w : List Char),
      s.testComplete = false →
      s.words.get? s.currentWordIndex = some w →
      w.length ≤ s.currentCharIndex →
      (applyKey cfg s c).correctChars = s.correctChars) ∧
    (∀ (cfg : TypingSettings) (s : SessionState) (w : List Char) (p : ℕ),
      s.testComplete = false →
      s.words.get? s.currentWordIndex = some w →
      w ≠ [] →
      s.currentInput ≠ [] →
      0 < s.currentCharIndex →
      (p ≠ (charOffsets s.words).getD s.currentWordIndex 0 + s.currentCharIndex - 1 →
        (applyBackspace cfg s).correctChars.getD p false =
          s.correctChars.getD p false) ∧
      (applyBackspace cfg s).correctChars.getD
          ((charOffsets s.words).getD s.currentWordIndex 0 + s.currentCharIndex - 1)
          false = false) := by
  refine ⟨?_, ?_, ?_, ?_⟩
  · intro cfg s c p hp
    by_cases hc : s.testComplete = true
    · rw [applyKey, handleInputChange_complete cfg s _ hc]
    · have hc2 := bool_eq_false_of_ne_true _ hc
      cases hg : s.words.get? s.currentWordIndex with
      | none =>
          rw [applyKey, handleInputChange_noWord cfg s _ hc2 hg,
            activeState_correctChars]
      | some w =>
          by_cases hwe : w = []
          · rw [applyKey, handleInputChange_emptyWord cfg s _ hc2 (hwe ▸ hg),
              activeState_correctChars]
          · rw [applyKey_eq_charStep cfg s c w hc2 hg hwe, charStep_correctChars,
              activeState_currentCharIndex, writeBitmap_activeState, writeBitmap]
            split_ifs
            · exact getD_set_of_ne _ _ _ _ _ (Ne.symm hp)
            · rfl
  · intro cfg s c w hc hg hlt
    have hwi : s.currentWordIndex < s.words.length := (List.get?_eq_some.mp hg).1
    have hne : s.words ≠ [] := by
      intro hz
      rw [hz] at hwi
      simp at hwi
    have hwe : w ≠ [] := by
      intro hz
      rw [hz] at hlt
      simp at hlt
    rw [applyKey_eq_charStep cfg s c w hc hg hwe, charStep_correctChars,
      activeState_currentCharIndex, writeBitmap_activeState, writeBitmap,
      if_pos ⟨by rw [charOffsets_length _ hne]; exact hwi, hlt⟩]
  · intro cfg s c w hc hg hlen
    by_cases hwe : w = []
    · rw [applyKey, handleInputChange_emptyWord cfg s _ hc (hwe ▸ hg),
        activeState_correctChars]
    · rw [applyKey_eq_charStep cfg s c w hc hg hwe, charStep_correctChars,
        activeState_currentCharIndex, writeBitmap_activeState, writeBitmap,
        if_neg (fun hx => absurd hx.2 (by omega))]
  · intro cfg s w p hc hg hwe hne hci
    have hwi : s.currentWordIndex < s.words.length := (List.get?_eq_some.mp hg).1
    have hnil : s.words ≠ [] := by
      intro hz
      rw [hz] at hwi
      simp at hwi
    rw [applyBackspace_eq_backspaceStep cfg s w hc hg hwe hne]
    have h1 : ¬((activeState s s.currentInput.dropLast).currentCharIndex = 0 ∧
        0 < (activeState s s.currentInput.dropLast).currentWordIndex) := by
      rw [activeState_currentCharIndex, activeState_currentWordIndex]
      intro hx
      omega
    have h2 : 0 < (activeState s s.currentInput.dropLast).currentCharIndex := by
      rw [activeState_currentCharIndex]
      omega
    rw [backspaceStep_within cfg _ _ h1 h2]
    dsimp only
    rw [eraseBitmap_activeState]
    constructor
    · intro hp
      simp only [eraseBitmap]
      split_ifs
      · exact getD_set_of_ne _ _ _ _ _ (Ne.symm hp)
      · rfl
      · rfl
    · simp only [eraseBitmap]
      split_ifs with hA hB
      · exact getD_set_self _ _ _ _ hB
      · exact getD_of_length_le _ _ _ (by omega)
      · exact absurd (by rw [charOffsets_length _ hnil]; exact hwi) hA

/-- C10 witness: at a concrete state, a keystroke leaves the non-written
entry unchanged and an immediate within-word backspace resets the
uncommitted position to false. -/
theorem c10_witness :
    (applyKey strictSettings (resetState DEFAULT_STATS [['a', 'b']]) 'a').correctChars.getD
        1 false =
      (resetState DEFAULT_STATS [['a', 'b']]).correctChars.getD 1 false ∧
    (applyBackspace strictSettings
        (applyKey strictSettings (resetState DEFAULT_STATS [['a', 'b']]) 'a')).correctChars.getD
        0 false = false :=
  ⟨c10_bitmap_frame.1 strictSettings (resetState DEFAULT_STATS [['a', 'b']]) 'a' 1
    (by decide),
   (c10_bitmap_frame.2.2.2 strictSettings
      (applyKey strictSettings (resetState DEFAULT_STATS [['a', 'b']]) 'a') ['a', 'b'] 0
      (by decide) (by decide) (by decide) (by decide) (by decide)).2⟩

end TypingSpec

namespace TypingSpec

theorem c5_core (cfg : TypingSettings) (t : SessionState) (w : List Char) (c : Char)
    (value : List Char)
    (hw : t.words.get? t.currentWordIndex = some w)
    (hc : t.testComplete = false)
    (hinv : SessionInv cfg t)
    (hwne : w ≠ [])
    (hvne : value ≠ [])
    (hsp : c ≠ ' ')
    (hstrict : cfg.accuracyMode = AccuracyMode.strict →
      isCorrectChar w t.currentCharIndex c = true) :
    (applyBackspace cfg (charStep cfg t w c value)).currentWordIndex =
      t.currentWordIndex ∧
    (applyBackspace cfg (charStep cfg t w c value)).currentCharIndex =
      t.currentCharIndex ∧
    (applyBackspace cfg (charStep cfg t w c value)).correctChars = t.correctChars := by
  have hwi : t.currentWordIndex < t.words.length := (List.get?_eq_some.mp hw).1
  have hgD : t.words.getD t.currentWordIndex [] = w :=
    getD_eq_of_get?_eq_some _ _ _ _ hw
  have hnil : t.words ≠ [] := by
    intro hz
    rw [hz] at hwi
    simp at hwi
  have holen := charOffsets_length t.words hnil
  have hbound := charOffsets_add_len_le_total t.words t.currentWordIndex hwi
  rw [hgD] at hbound
  rw [charStep_of_ne_space cfg t w c value hsp]
  have hci : (if cfg.accuracyMode = AccuracyMode.strict then
      (if isCorrectChar w t.currentCharIndex c then t.currentCharIndex + 1
       else t.currentCharIndex)
      else t.currentCharIndex + 1) = t.currentCharIndex + 1 := by
    by_cases hstr : cfg.accuracyMode = AccuracyMode.strict
    · rw [if_pos hstr, if_pos (hstrict hstr)]
    · rw [if_neg hstr]
  rw [hci]
  set B : SessionState :=
    { t with
      correctChars := writeBitmap t w (isCorrectChar w t.currentCharIndex c),
      currentCharIndex := t.currentCharIndex + 1,
      currentInput := value } with hBdef
  have hBc : B.testComplete = false := hc
  have hBg : B.words.get? B.currentWordIndex = some w := hw
  have hBne : B.currentInput ≠ [] := hvne
  rw [applyBackspace_eq_backspaceStep cfg B w hBc hBg hwne hBne]
  have hBci : B.currentCharIndex = t.currentCharIndex + 1 := rfl
  have h1 : ¬((activeState B B.currentInput.dropLast).currentCharIndex = 0 ∧
      0 < (activeState B B.currentInput.dropLast).currentWordIndex) := by
    rw [activeState_currentCharIndex]
    intro hx
    rw [hBci] at hx
    omega
  have h2 : 0 < (activeState B B.currentInput.dropLast).currentCharIndex := by
    rw [activeState_currentCharIndex, hBci]
    omega
  rw [backspaceStep_within cfg _ _ h1 h2]
  have hBwi : B.currentWordIndex = t.currentWordIndex := rfl
  refine ⟨?_, ?_, ?_⟩
  · dsimp only
    rw [activeState_currentWordIndex]
  · dsimp only
    rw [activeState_currentCharIndex]
    omega
  · dsimp only
    rw [eraseBitmap_activeState]
    simp only [eraseBitmap]
    rw [if_pos (show t.currentWordIndex < (charOffsets t.words).length by
      rw [holen]; exact hwi)]
    have hpos : (charOffsets t.words).getD t.currentWordIndex 0 +
        (t.currentCharIndex + 1) - 1 =
        (charOffsets t.words).getD t.currentWordIndex 0 + t.currentCharIndex := by
      omega
    rw [hpos]
    have hbey : t.correctChars.getD
        ((charOffsets t.words).getD t.currentWordIndex 0 + t.currentCharIndex) false
        = false := by
      apply hinv.beyond
      rw [cursorFloor_lt t hwi, hgD]
      omega
    by_cases hciw : t.currentCharIndex < w.length
    · have hwb : writeBitmap t w (isCorrectChar w t.currentCharIndex c) =
          t.correctChars.set
            ((charOffsets t.words).getD t.currentWordIndex 0 + t.currentCharIndex)
            (isCorrectChar w t.currentCharIndex c) := by
        rw [writeBitmap, if_pos ⟨show t.currentWordIndex < (charOffsets t.words).length
          by rw [holen]; exact hwi, hciw⟩]
      rw [hwb]
      have hposlt : (charOffsets t.words).getD t.currentWordIndex 0 +
          t.currentCharIndex <
          (t.correctChars.set
            ((charOffsets t.words).getD t.currentWordIndex 0 + t.currentCharIndex)
            (isCorrectChar w t.currentCharIndex c)).length := by
        rw [List.length_set, hinv.bmLen]
        omega
      rw [if_pos hposlt, List.set_set]
      exact set_false_of_getD_false t.correctChars _ hbey
    · have hwb : writeBitmap t w (isCorrectChar w t.currentCharIndex c) =
          t.correctChars := by
        rw [writeBitmap, if_neg (fun hx => absurd hx.2 hciw)]
      rw [hwb]
      split_ifs with hB2
      · exact set_false_of_getD_false t.correctChars _ hbey
      · rfl

end TypingSpec

namespace TypingSpec

/-- C5 counterexample: strict policy on the word `ab` — after typing the
correct `a` the cursor is at charIndex 1 with bitmap `[true,false]`; typing
the incorrect character `x` (which does not advance the cursor under the
strict policy) and then a backspace leaves the cursor at charIndex 0 and the
bitmap at `[false,false]`: neither the cursor nor the bitmap is restored to
the state preceding the keystroke. -/
theorem c5_counterexample :
    (runEvents strictSettings (resetState DEFAULT_STATS [['a', 'b']])
      [TypingEvent.key 'a']).currentCharIndex = 1 ∧
    (runEvents strictSettings (resetState DEFAULT_STATS [['a', 'b']])
      [TypingEvent.key 'a']).correctChars = [true, false] ∧
    (applyBackspace strictSettings (applyKey strictSettings
      (runEvents strictSettings (resetState DEFAULT_STATS [['a', 'b']])
        [TypingEvent.key 'a']) 'x')).currentCharIndex = 0 ∧
    (applyBackspace strictSettings (applyKey strictSettings
      (runEvents strictSettings (resetState DEFAULT_STATS [['a', 'b']])
        [TypingEvent.key 'a']) 'x')).correctChars = [false, false] := by
  refine ⟨?_, ?_, ?_, ?_⟩ <;> decide

/-- C5 (amended): in any reachable session state, for a character
(non-separator) keystroke that advances `charIndex` — any character under
the relaxed policy, a correctly typed character under the strict policy — an
immediate backspace restores the cursor `(wordIndex, charIndex)` and the
correctness bitmap to exactly the state that preceded the keystroke.  (After
a strict-mode incorrect keystroke the backspace instead moves the cursor
back one position and clears that bitmap entry, as the counterexample
shows.) -/
theorem c5_backspace_restores (cfg : TypingSettings) (stats : TypingStats)
    (ws : List (List Char)) (evs : List TypingEvent) (s : SessionState) (c : Char)
    (hs : s = runEvents cfg (resetState stats ws) evs)
    (hsp : c ≠ ' ')
    (hstrict : cfg.accuracyMode = AccuracyMode.strict →
      isCorrectChar (s.words.getD s.currentWordIndex []) s.currentCharIndex c
        = true) :
    (applyBackspace cfg (applyKey cfg s c)).currentWordIndex = s.currentWordIndex ∧
    (applyBackspace cfg (applyKey cfg s c)).currentCharIndex = s.currentCharIndex ∧
    (applyBackspace cfg (applyKey cfg s c)).correctChars = s.correctChars := by
  have hinv : SessionInv cfg s := by
    rw [hs]
    exact inv_runEvents cfg _ evs (inv_resetState cfg stats ws)
  by_cases hc : s.testComplete = true
  · rw [applyKey, handleInputChange_complete cfg s _ hc, applyBackspace,
      handleInputChange_complete cfg s _ hc]
    exact ⟨rfl, rfl, rfl⟩
  · have hc2 := bool_eq_false_of_ne_true _ hc
    cases hg : s.words.get? s.currentWordIndex with
    | none =>
        rw [applyKey, handleInputChange_noWord cfg s _ hc2 hg]
        have hc3 : (activeState s (s.currentInput ++ [c])).testComplete = false :=
          (activeState_testComplete _ _).trans hc2
        have hg3 : (activeState s (s.currentInput ++ [c])).words.get?
            (activeState s (s.currentInput ++ [c])).currentWordIndex = none := by
          rw [activeState_words, activeState_currentWordIndex]
          exact hg
        rw [applyBackspace, handleInputChange_noWord cfg _ _ hc3 hg3]
        refine ⟨?_, ?_, ?_⟩
        · rw [activeState_currentWordIndex, activeState_currentWordIndex]
        · rw [activeState_currentCharIndex, activeState_currentCharIndex]
        · rw [activeState_correctChars, activeState_correctChars]
    | some w =>
        by_cases hwe : w = []
        · rw [applyKey, handleInputChange_emptyWord cfg s _ hc2 (hwe ▸ hg)]
          have hc3 : (activeState s (s.currentInput ++ [c])).testComplete = false :=
            (activeState_testComplete _ _).trans hc2
          have hg3 : (activeState s (s.currentInput ++ [c])).words.get?
              (activeState s (s.currentInput ++ [c])).currentWordIndex = some [] := by
            rw [activeState_words, activeState_currentWordIndex]
            exact hwe ▸ hg
          rw [applyBackspace, handleInputChange_emptyWord cfg _ _ hc3 hg3]
          refine ⟨?_, ?_, ?_⟩
          · rw [activeState_currentWordIndex, activeState_currentWordIndex]
          · rw [activeState_currentCharIndex, activeState_currentCharIndex]
          · rw [activeState_correctChars, activeState_correctChars]
        · rw [applyKey_eq_charStep cfg s c w hc2 hg hwe]
          have hw1 : (activeState s (s.currentInput ++ [c])).words.get?
              (activeState s (s.currentInput ++ [c])).currentWordIndex = some w := by
            rw [activeState_words, activeState_currentWordIndex]
            exact hg
          have hc1 : (activeState s (s.currentInput ++ [c])).testComplete = false :=
            (activeState_testComplete _ _).trans hc2
          have hinv1 : SessionInv cfg (activeState s (s.currentInput ++ [c])) :=
            inv_activeState cfg s _ hinv
          have hstrict1 : cfg.accuracyMode = AccuracyMode.strict →
              isCorrectChar w
                (activeState s (s.currentInput ++ [c])).currentCharIndex c = true := by
            intro hstr
            rw [activeState_currentCharIndex]
            have hh := hstrict hstr
            rw [getD_eq_of_get?_eq_some _ _ _ _ hg] at hh
            exact hh
          have hvne : s.currentInput ++ [c] ≠ [] := by simp
          have hcore := c5_core cfg (activeState s (s.currentInput ++ [c])) w c
            (s.currentInput ++ [c]) hw1 hc1 hinv1 hwe hvne hsp hstrict1
          refine ⟨?_, ?_, ?_⟩
          · rw [hcore.1, activeState_currentWordIndex]
          · rw [hcore.2.1, activeState_currentCharIndex]
          · rw [hcore.2.2, activeState_correctChars]

/-- C5 witness: the amended restoration at a concrete strict-mode input — a
correct keystroke followed by a backspace restores cursor and bitmap. -/
theorem c5_witness :
    (applyBackspace strictSettings (applyKey strictSettings
        (runEvents strictSettings (resetState DEFAULT_STATS [['a', 'b']]) [])
        'a')).currentCharIndex =
      (runEvents strictSettings (resetState DEFAULT_STATS [['a', 'b']])
        []).currentCharIndex ∧
    (applyBackspace strictSettings (applyKey strictSettings
        (runEvents strictSettings (resetState DEFAULT_STATS [['a', 'b']]) [])
        'a')).correctChars =
      (runEvents strictSettings (resetState DEFAULT_STATS [['a', 'b']])
        []).correctChars :=
  ⟨(c5_backspace_restores strictSettings DEFAULT_STATS [['a', 'b']] []
      (runEvents strictSettings (resetState DEFAULT_STATS [['a', 'b']]) []) 'a' rfl
      (by decide) (fun _ => by decide)).2.1,
   (c5_backspace_restores strictSettings DEFAULT_STATS [['a', 'b']] []
      (runEvents strictSettings (resetState DEFAULT_STATS [['a', 'b']]) []) 'a' rfl
      (by decide) (fun _ => by decide)).2.2⟩

end TypingSpec
